import Mathlib

/-!
Verification of the KN5 node-writing pipeline (NodeWriter.py of the
blender-kn5-exporter repository).

The development shallowly embeds the pure content of `NodeWriter.py`:
float values are modelled as rationals, the output byte sink is modelled
as a list of write tokens, Python exceptions become `Except String`, and
Python dictionaries that assign consecutive integer values in insertion
order are modelled as association lists paired with a well-formedness
invariant.  External collaborators (the Blender scene view, mathutils
matrices, the compiled regular expressions of the `re` module, and the
Materials Writer) are modelled at their interfaces: matrix application is
a plain function on coordinate triples, matrix values carried into node
records are inert handles, and the Materials Writer is the total mapping
`String → Option Nat` described by the specification.
-/

/-! ## Basic value types -/

/-- A 2-component vector (uv pair). -/
abbrev Q2 : Type := ℚ × ℚ

/-- A 3-component vector. -/
abbrev Q3 : Type := ℚ × ℚ × ℚ

/-- The deduplication key of `splitObjectByMaterials`: the class `UvVertex`
of NodeWriter.py.  Its Python `__eq__` compares all eleven components, so
equality is structural. -/
structure UvVertex where
  co : Q3
  normal : Q3
  uv : Q2
  tangent : Q3
deriving DecidableEq, Repr, Inhabited

/-- The class `Mesh` of NodeWriter.py: one per-material partition. -/
structure Mesh where
  materialId : Option Nat
  vertices : List UvVertex
  indices : List Nat
deriving DecidableEq, Repr, Inhabited

/-! ## Python insertion-order dictionaries

Both `splitObjectByMaterials` and `splitMeshesForVertexLimit` build a
dictionary `d` with the idiom `if k not in d: d[k] = len(d)` and finally
read the keys back with `sorted(d.items(), key=lambda k: k[1])`.  A Python
dict is modelled as an association list in insertion order; the values
are then `0, 1, 2, ...` in list order, which `dictWF` records. -/

/-- Lookup in the association-list model of a Python dict. -/
def lookupVal {α : Type} [DecidableEq α] : List (α × Nat) → α → Option Nat
  | [], _ => none
  | (k, v) :: rest, key => if k = key then some v else lookupVal rest key

/-- The idiom `if key not in d: d[key] = len(d)` followed by reading
`d[key]`: returns the updated dict and the value found or assigned. -/
def dictInsert {α : Type} [DecidableEq α] (m : List (α × Nat)) (key : α) :
    List (α × Nat) × Nat :=
  match lookupVal m key with
  | some j => (m, j)
  | none => (m ++ [(key, m.length)], m.length)

/-- Sequential insertion of several keys, appending each resulting value
to an accumulator; this is the inner per-face-vertex loop of both
dictionary users. -/
def dictInsertMany {α : Type} [DecidableEq α] (m : List (α × Nat))
    (acc : List Nat) : List α → List (α × Nat) × List Nat
  | [] => (m, acc)
  | k :: ks =>
    let r := dictInsert m k
    dictInsertMany r.1 (acc ++ [r.2]) ks

/-- Well-formedness of the dict model: values are `0, 1, 2, ...` in list
order and keys are distinct. -/
def dictWF {α : Type} (m : List (α × Nat)) : Prop :=
  m.map Prod.snd = List.range m.length ∧ (m.map Prod.fst).Nodup

/-- The key stored at value `j`. -/
def keyAt {α : Type} [Inhabited α] (m : List (α × Nat)) (j : Nat) : α :=
  (m.map Prod.fst).getD j default

/-- One step of first-seen-order deduplication, the effect of the Python
dict idiom on the key sequence. -/
def pyKeysInsert {α : Type} [DecidableEq α] (acc : List α) (x : α) : List α :=
  if x ∈ acc then acc else acc ++ [x]

/-- First-seen-order deduplication of a stream. -/
def dedupFirst {α : Type} [DecidableEq α] (l : List α) : List α :=
  l.foldl pyKeysInsert []

/-! ## Index-Limit Splitter (`NodeWriter.splitMeshesForVertexLimit`)

The Python `while startIndex < len(mesh.indices)` loop with the inner
`for i in range(startIndex, len(mesh.indices), 3)` loop is embedded as
`buildChunks`, one recursive call per produced chunk, with `buildChunkAux`
playing the role of the inner loop: it consumes the index list three
entries at a time (`mesh.indices[i:i+3]`, a clamping slice), inserts each
source index into the chunk dictionary, and stops after the triangle that
makes the dictionary reach `limit - 3` entries, returning the remaining
index list. -/
def buildChunkAux (limit : Nat) (idx : List Nat) (m : List (Nat × Nat))
    (ni : List Nat) : List (Nat × Nat) × List Nat × List Nat :=
  match idx with
  | [] => (m, ni, [])
  | a :: rest =>
    if limit - 3 ≤ (dictInsertMany m ni ((a :: rest).take 3)).1.length then
      ((dictInsertMany m ni ((a :: rest).take 3)).1,
       (dictInsertMany m ni ((a :: rest).take 3)).2, (a :: rest).drop 3)
    else buildChunkAux limit ((a :: rest).drop 3)
      (dictInsertMany m ni ((a :: rest).take 3)).1
      (dictInsertMany m ni ((a :: rest).take 3)).2
termination_by idx.length
decreasing_by simp; omega

/-- The outer `while startIndex < len(mesh.indices)` loop: one chunk
(dictionary, local index list) per iteration. -/
def buildChunks (limit : Nat) (idx : List Nat) :
    List (List (Nat × Nat) × List Nat) :=
  match idx with
  | [] => []
  | a :: rest =>
    ((buildChunkAux limit (a :: rest) [] []).1,
     (buildChunkAux limit (a :: rest) [] []).2.1) ::
      buildChunks limit (buildChunkAux limit (a :: rest) [] []).2.2
termination_by idx.length
decreasing_by
  have key : ∀ (i : List Nat) (m : List (Nat × Nat)) (ni : List Nat), i ≠ [] →
      (buildChunkAux limit i m ni).2.2.length < i.length := by
    intro i m ni
    induction i, m, ni using buildChunkAux.induct limit with
    | case1 m ni => intro h; exact absurd rfl h
    | case2 m ni a rest hguard =>
      intro _
      rw [buildChunkAux]
      simp only [if_pos hguard, List.length_drop, List.length_cons]
      omega
    | case3 m ni a rest hguard ih =>
      intro _
      rw [buildChunkAux]
      simp only [if_neg hguard]
      by_cases hrest : (a :: rest).drop 3 = []
      · rw [hrest, buildChunkAux]
        simp
      · refine lt_trans (ih hrest) ?_
        simp only [List.length_drop, List.length_cons]
        omega
  exact key _ _ _ (by simp)

/-- The method `NodeWriter.splitMeshesForVertexLimit` (lines 250 to 274 of
NodeWriter.py), with `limit = 2 ** 16`.  A mesh whose vertex count is not
above the limit passes through unchanged; otherwise its index list is
re-chunked.  The final Python read-back
`sorted(vertexIndexMapping.items(), key=lambda k: k[1])` is embedded
verbatim as a stable sort on the stored values. -/
def chunkToMesh (mesh : Mesh) (c : List (Nat × Nat) × List Nat) : Mesh :=
  { materialId := mesh.materialId
    vertices := (c.1.mergeSort (fun a b => decide (a.2 ≤ b.2))).map
      (fun p => mesh.vertices.getD p.1 default)
    indices := c.2 }

def splitMeshesForVertexLimit (dividedMeshes : List Mesh) : List Mesh :=
  dividedMeshes.flatMap fun mesh =>
    if 2 ^ 16 < mesh.vertices.length then
      (buildChunks (2 ^ 16) mesh.indices).map (chunkToMesh mesh)
    else [mesh]

/-- The triangle stream of a mesh by vertex value: each index replaced by
the vertex it references. -/
def decodeMesh (m : Mesh) : List UvVertex :=
  m.indices.map fun i => m.vertices.getD i default

/-! ## Blender scene view and external interfaces

The Blender data consumed by `splitObjectByMaterials` and the node
writers, modelled at the interface described in section 6 of the spec.
Floats are rationals; `mathutils` matrix application (`matrix * vector`,
which treats a 3-vector as having `w = 1`) is modelled as a plain
function on coordinate triples; matrix values that are only carried into
node records (`convertMatrix` results) are inert `KMat` handles. -/
structure TextureSlot where
  scale : Q2
  offset : Q2
deriving DecidableEq, Repr, Inhabited

structure BMaterial where
  name : String
  activeTextureSlot : Option TextureSlot
deriving DecidableEq, Repr, Inhabited

structure BVertex where
  co : Q3
  normal : Q3
deriving DecidableEq, Repr, Inhabited

structure BFace where
  material_index : Nat
  vertices : List Nat
  index : Nat
deriving DecidableEq, Repr, Inhabited

/-- The active tessface UV layer: `uvLayer.data[faceIndex].uv` is the list
of per-face-vertex uv pairs. -/
structure BUvLayer where
  data : List (List Q2)
deriving DecidableEq, Repr, Inhabited

/-- The result of `object.to_mesh(...)`: the triangulated mesh copy. -/
structure BMeshData where
  materials : List (Option BMaterial)
  vertices : List BVertex
  tessfaces : List BFace
  uvLayer : Option BUvLayer
deriving DecidableEq, Repr, Inhabited

/-- An inert handle for an external mathutils matrix value carried into a
node record (the results of `kn5Helper.convertMatrix`). -/
inductive KMat where
  | identity
  | handle (tag : Nat)
deriving DecidableEq, Repr, Inhabited

/-- The authored per-object Assetto Corsa properties
(`node.assettoCorsa`). -/
structure ACProps where
  lodIn : ℚ
  lodOut : ℚ
  layer : Nat
  castShadows : Bool
  visible : Bool
  transparent : Bool
  renderable : Bool
deriving DecidableEq, Repr, Inhabited

/-- A scene object.  `hasParent` models `object.parent is not None`,
`convLocalMatrix` models `convertMatrix(object.matrix_local)` and
`convParentInvWorld` models
`convertMatrix(object.parent.matrix_world.inverted())`. -/
inductive BObject where
  | mk (name : String) (otype : String) (hasParent : Bool)
      (matrixWorld : Q3 → Q3) (dimensions : Q3)
      (convLocalMatrix : KMat) (convParentInvWorld : KMat)
      (meshData : BMeshData) (assettoCorsa : ACProps)
      (children : List BObject)

def BObject.name : BObject → String
  | .mk n _ _ _ _ _ _ _ _ _ => n

def BObject.otype : BObject → String
  | .mk _ t _ _ _ _ _ _ _ _ => t

def BObject.hasParent : BObject → Bool
  | .mk _ _ p _ _ _ _ _ _ _ => p

def BObject.matrixWorld : BObject → (Q3 → Q3)
  | .mk _ _ _ w _ _ _ _ _ _ => w

def BObject.dimensions : BObject → Q3
  | .mk _ _ _ _ d _ _ _ _ _ => d

def BObject.convLocalMatrix : BObject → KMat
  | .mk _ _ _ _ _ l _ _ _ _ => l

def BObject.convParentInvWorld : BObject → KMat
  | .mk _ _ _ _ _ _ p _ _ _ => p

def BObject.meshData : BObject → BMeshData
  | .mk _ _ _ _ _ _ _ m _ _ => m

def BObject.assettoCorsa : BObject → ACProps
  | .mk _ _ _ _ _ _ _ _ a _ => a

def BObject.children : BObject → List BObject
  | .mk _ _ _ _ _ _ _ _ _ c => c

/-- The function `convertVector3` of utils/__init__.py:
`Vector((v[0], v[2], -v[1]))`. -/
def convertVector3 (v : Q3) : Q3 := (v.1, v.2.2, -v.2.1)

/-- Modelled from the spec: the helper `kn5Helper.getActiveMaterialTextureSlot`
is not under src/; per the UV fallback rule it yields the texture
transform of the active material texture slot when one exists. -/
def getActiveMaterialTextureSlot (mat : BMaterial) : Option TextureSlot :=
  mat.activeTextureSlot

/-- The method `NodeWriter.calculateUvs` (lines 276 to 287). -/
def calculateUvs (object : BObject) (mesh : BMeshData) (materialId : Nat)
    (co : Q3) : Q2 :=
  let size := object.dimensions
  let x := co.1 / size.1
  let y := co.2.1 / size.2.1
  match mesh.materials.getD materialId none with
  | none => (x, y)
  | some mat =>
    match getActiveMaterialTextureSlot mat with
    | none => (x, y)
    | some textureSlot =>
      (x * textureSlot.scale.1 + textureSlot.offset.1,
       y * textureSlot.scale.2 + textureSlot.offset.2)

/-- The per-face-vertex body of the loop in `splitObjectByMaterials`
(lines 222 to 234): world-transform the position, convert position and
normal to the target axis system, read or synthesize the uv, and default
the tangent.  The misleading Python name `localPosition` for the
world-transformed position is kept. -/
def buildVertex (object : BObject) (meshCopy : BMeshData)
    (materialIndex : Nat) (face : BFace) (vertexIndexForFace : Nat)
    (vIndex : Nat) : UvVertex :=
  let v := meshCopy.vertices.getD vIndex default
  let localPosition := object.matrixWorld v.co
  let convertedPosition := convertVector3 localPosition
  let convertedNormal := convertVector3 v.normal
  let uv :=
    match meshCopy.uvLayer with
    | some uvLayer =>
      let uv0 := (uvLayer.data.getD face.index []).getD vertexIndexForFace (0, 0)
      (uv0.1, -uv0.2)
    | none => calculateUvs object meshCopy materialIndex localPosition
  { co := convertedPosition, normal := convertedNormal, uv := uv,
    tangent := (1, 0, 0) }

/-- The `UvVertex` values built for one face, in face-vertex order
(`vertexIndexForFace` counts `0, 1, ...`). -/
def faceVertexValues (object : BObject) (meshCopy : BMeshData)
    (materialIndex : Nat) (face : BFace) : List UvVertex :=
  face.vertices.enum.map fun p =>
    buildVertex object meshCopy materialIndex face p.1 p.2

/-- The winding transform applied to the collected per-face indices
(lines 240 to 242): `(1, 2, 0)` for every face and additionally
`(2, 3, 0)` for a quad.  Blender tessfaces always carry 3 or 4 vertices;
the `getD` default covers the out-of-contract shorter faces on which the
Python list indexing would fail. -/
def windingIndices (faceIndices : List Nat) : List Nat :=
  [faceIndices.getD 1 0, faceIndices.getD 2 0, faceIndices.getD 0 0] ++
    (if faceIndices.length = 4 then
      [faceIndices.getD 2 0, faceIndices.getD 3 0, faceIndices.getD 0 0]
    else [])

/-- The face loop of `splitObjectByMaterials` for one material index:
faces of other materials are skipped (`continue`), each matching face
deduplicates its vertices into the dict and appends its winding-transformed
indices. -/
def processFaces (object : BObject) (meshCopy : BMeshData)
    (materialIndex : Nat) :
    List BFace → List (UvVertex × Nat) → List Nat →
    List (UvVertex × Nat) × List Nat
  | [], m, indices => (m, indices)
  | face :: rest, m, indices =>
    if materialIndex = face.material_index then
      processFaces object meshCopy materialIndex rest
        (dictInsertMany m []
          (faceVertexValues object meshCopy materialIndex face)).1
        (indices ++ windingIndices (dictInsertMany m []
          (faceVertexValues object meshCopy materialIndex face)).2)
    else processFaces object meshCopy materialIndex rest m indices

/-- The per-used-material body of `splitObjectByMaterials` (lines 209 to
245): check the slot and the reserved name, process the faces, read the
vertex array back in value order, and resolve the material id through the
Materials Writer.  The Materials Writer itself is not under src/ and is
modelled from the spec as the total mapping `String → Option Nat`. -/
def meshForMaterial (object : BObject) (meshCopy : BMeshData)
    (materialsWriter : String → Option Nat) (materialIndex : Nat) :
    Except String Mesh :=
  match meshCopy.materials.getD materialIndex none with
  | none => .error ("Material slot " ++ toString materialIndex ++
      " for object '" ++ object.name ++ "' has no material assigned")
  | some mat =>
    if mat.name.startsWith "__" then
      .error ("Material '" ++ mat.name ++ "' is ignored but is used by object '"
        ++ object.name ++ "'")
    else
      .ok { materialId := materialsWriter mat.name
            vertices := ((processFaces object meshCopy materialIndex
                meshCopy.tessfaces [] []).1.mergeSort
                  (fun a b => decide (a.2 ≤ b.2))).map Prod.fst
            indices := (processFaces object meshCopy materialIndex
                meshCopy.tessfaces [] []).2 }

/-- The Python `set([face.material_index for face in meshFaces])`: a
CPython set of small non-negative ints iterates in ascending order (the
spec likewise promises partitions ordered by ascending material slot
index). -/
def usedMaterialIndices (meshCopy : BMeshData) : List Nat :=
  ((meshCopy.tessfaces.map fun face => face.material_index).dedup).mergeSort
    (fun a b => decide (a ≤ b))

/-- The `for materialIndex in usedMaterials` loop of
`splitObjectByMaterials`: one `Mesh` appended per used material, the
first raised exception aborting the loop. -/
def meshesForMaterials (object : BObject) (meshCopy : BMeshData)
    (materialsWriter : String → Option Nat) :
    List Nat → Except String (List Mesh)
  | [] => Except.ok []
  | mi :: rest => do
    let m ← meshForMaterial object meshCopy materialsWriter mi
    let ms ← meshesForMaterials object meshCopy materialsWriter rest
    pure (m :: ms)

/-- The method `NodeWriter.splitObjectByMaterials` (lines 198 to 248).
The `try/finally` removal of the temporary mesh copy is a resource
effect with no bearing on the returned value. -/
def splitObjectByMaterials (object : BObject)
    (materialsWriter : String → Option Nat) : Except String (List Mesh) :=
  let meshCopy := object.meshData
  if meshCopy.materials.length = 0 then
    .error ("Object '" ++ object.name ++ "' has no material assigned")
  else
    meshesForMaterials object meshCopy materialsWriter
      (usedMaterialIndices meshCopy)

/-! ## Binary encoder tokens and node records

The byte sink is modelled as a list of write tokens, one per call into
the primitive writers of kn5Helper (`writeUInt`, `writeUShort`,
`writeBool`, `writeFloat`, `writeString`, `writeVector2`, `writeVector3`,
`writeMatrix`); the low-level byte layout of each primitive is out of
scope here, so a token records the written value. -/
inductive Token where
  | uint (n : Nat)
  | ushort (n : Nat)
  | boolv (b : Bool)
  | flt (q : ℚ)
  | strv (s : String)
  | vec2 (v : Q2)
  | vec3 (v : Q3)
  | matv (m : KMat)
deriving DecidableEq, Repr, Inhabited

/-- The module-level `NodeClass` dictionary. -/
def NodeClass (nodeClass : String) : Nat :=
  if nodeClass = "Node" then 1
  else if nodeClass = "Mesh" then 2
  else 3

/-- The running min/max state of `writeBoundingSphere`. -/
structure BSphereState where
  maxX : ℚ
  maxY : ℚ
  maxZ : ℚ
  minX : ℚ
  minY : ℚ
  minZ : ℚ
deriving DecidableEq, Repr

def stepMaxX (st : BSphereState) (c : ℚ) : BSphereState :=
  if c > st.maxX then { st with maxX := c } else st

def stepMinX (st : BSphereState) (c : ℚ) : BSphereState :=
  if c < st.minX then { st with minX := c } else st

def stepMaxY (st : BSphereState) (c : ℚ) : BSphereState :=
  if c > st.maxY then { st with maxY := c } else st

def stepMinY (st : BSphereState) (c : ℚ) : BSphereState :=
  if c < st.minY then { st with minY := c } else st

def stepMaxZ (st : BSphereState) (c : ℚ) : BSphereState :=
  if c > st.maxZ then { st with maxZ := c } else st

def stepMinZ (st : BSphereState) (c : ℚ) : BSphereState :=
  if c < st.minZ then { st with minZ := c } else st

/-- The per-vertex update of `writeBoundingSphere`: the six sequential
`if` comparisons of lines 180 to 191 against the running extrema. -/
def bsphereStep (st : BSphereState) (v : UvVertex) : BSphereState :=
  let co := v.co
  stepMinZ (stepMaxZ (stepMinY (stepMaxY (stepMinX (stepMaxX st co.1)
    co.1) co.2.1) co.2.1) co.2.2) co.2.2

/-- The method `NodeWriter.writeBoundingSphere` (lines 171 to 196), with
its literal `999999999` sentinels. -/
def writeBoundingSphere (vertices : List UvVertex) : List Token :=
  let st := vertices.foldl bsphereStep
    { maxX := -999999999, maxY := -999999999, maxZ := -999999999,
      minX := 999999999, minY := 999999999, minZ := 999999999 }
  let sphereCenter : Q3 := (st.minX + (st.maxX - st.minX) / 2,
    st.minY + (st.maxY - st.minY) / 2, st.minZ + (st.maxZ - st.minZ) / 2)
  let sphereRadius : ℚ := max ((st.maxX - st.minX) / 2)
    (max ((st.maxY - st.minY) / 2) ((st.maxZ - st.minZ) / 2)) * 2
  [Token.vec3 sphereCenter, Token.flt sphereRadius]

/-- The class `NodeProperties` (lines 289 to 299). -/
structure NodeProperties where
  name : String
  lodIn : ℚ
  lodOut : ℚ
  layer : Nat
  castShadows : Bool
  visible : Bool
  transparent : Bool
  renderable : Bool
deriving DecidableEq, Repr, Inhabited

def NodeProperties.ofNode (node : BObject) : NodeProperties :=
  { name := node.name
    lodIn := node.assettoCorsa.lodIn
    lodOut := node.assettoCorsa.lodOut
    layer := node.assettoCorsa.layer
    castShadows := node.assettoCorsa.castShadows
    visible := node.assettoCorsa.visible
    transparent := node.assettoCorsa.transparent
    renderable := node.assettoCorsa.renderable }

/-- The class `NodeSettings` (lines 301 to 384).  The compiled
case-insensitive wildcard patterns of one rule key are modelled as the
predicate list `nodeNameMatches` (the `re` engine is external), and the
per-field presence checks of the settings dictionary
(`getNodeLodIn`, ..., `getNodeIsRenderable`) become `Option` fields named
after their settings keys. -/
structure NodeSettings where
  nodeNameMatches : List (String → Bool)
  lodIn : Option ℚ
  lodOut : Option ℚ
  layer : Option Nat
  castShadows : Option Bool
  isVisible : Option Bool
  isTransparent : Option Bool
  isRenderable : Option Bool

def doesNodeNameMatch (s : NodeSettings) (nodeName : String) : Bool :=
  s.nodeNameMatches.any fun regex => regex nodeName

/-- The method `NodeSettings.applySettingsToNode` (lines 307 to 330):
return unchanged unless some pattern matches, otherwise overwrite exactly
the fields for which the rule supplies a value, in source order. -/
def applySettingsToNode (s : NodeSettings) (node : NodeProperties) :
    NodeProperties :=
  if ¬ doesNodeNameMatch s node.name then node
  else
    let node := match s.lodIn with
      | some v => { node with lodIn := v } | none => node
    let node := match s.lodOut with
      | some v => { node with lodOut := v } | none => node
    let node := match s.layer with
      | some v => { node with layer := v } | none => node
    let node := match s.castShadows with
      | some v => { node with castShadows := v } | none => node
    let node := match s.isVisible with
      | some v => { node with visible := v } | none => node
    let node := match s.isTransparent with
      | some v => { node with transparent := v } | none => node
    let node := match s.isRenderable with
      | some v => { node with renderable := v } | none => node
    node

/-- The method `NodeWriter.writeMesh` (lines 141 to 169).  The vertex
limit check sits between the header writes and the vertex writes in the
source; since an exception aborts the whole export, the all-or-nothing
`Except` value model is observation-equivalent.  The second component
collects the warnings appended to `self.warnings`. -/
def writeMesh (objectName : String) (mesh : Mesh)
    (nodeProperties : NodeProperties) :
    Except String (List Token × List String) :=
  if 2 ^ 16 < mesh.vertices.length then
    .error ("Only 65536 vertices per mesh allowed. ('" ++ objectName ++ "')")
  else
    .ok ([Token.uint (NodeClass "Mesh"), Token.strv objectName, Token.uint 0,
      Token.boolv true, Token.boolv nodeProperties.castShadows,
      Token.boolv nodeProperties.visible,
      Token.boolv nodeProperties.transparent,
      Token.uint mesh.vertices.length] ++
      (mesh.vertices.flatMap fun v =>
        [Token.vec3 v.co, Token.vec3 v.normal, Token.vec2 v.uv,
         Token.vec3 v.tangent]) ++
      [Token.uint mesh.indices.length] ++ mesh.indices.map Token.ushort ++
      [Token.uint (match mesh.materialId with | none => 0 | some i => i)] ++
      [Token.uint nodeProperties.layer, Token.flt nodeProperties.lodIn,
       Token.flt nodeProperties.lodOut] ++
      writeBoundingSphere mesh.vertices ++
      [Token.boolv nodeProperties.renderable],
      match mesh.materialId with
      | none => ["No material to mesh '" ++ objectName ++ "' assigned"]
      | some _ => [])

structure NodeData where
  name : String
  childCount : Nat
  active : Bool
  transform : KMat

/-- The method `NodeWriter.writeBaseNodeData` (lines 111 to 116). -/
def writeBaseNodeData (nodeData : NodeData) : List Token :=
  [Token.uint (NodeClass "Node"), Token.strv nodeData.name,
   Token.uint nodeData.childCount, Token.boolv nodeData.active,
   Token.matv nodeData.transform]

mutual
def anyChildIsMesh : BObject → Bool
  | .mk _ _ _ _ _ _ _ _ _ children => anyChildIsMeshList children
def anyChildIsMeshList : List BObject → Bool
  | [] => false
  | child :: rest =>
    (child.otype = "MESH" || anyChildIsMesh child) || anyChildIsMeshList rest
end

/-- The writer context: the external Materials Writer mapping, the
compiled `AcObjects` regular expressions (`isAcObject`, external `re`
engine), and the configured node setting rules. -/
structure WCtx where
  materialsWriter : String → Option Nat
  acMatch : String → Bool
  nodeSettings : List NodeSettings

def unknownLogicalObjectWarning (name : String) : String :=
  "Unknown logical object '" ++ name ++
    "' might prevent other objects from loading.\n\tRename it to '__" ++
    name ++ "' if you do not want to export it."

/-- The `object is not None` branch of `NodeWriter.writeBaseNode`
(lines 96 to 108). -/
def writeBaseNode (ctx : WCtx) (object : BObject) :
    List Token × List String :=
  let warns :=
    if ¬ ctx.acMatch object.name && ¬ anyChildIsMesh object then
      [unknownLogicalObjectWarning object.name]
    else []
  let childCount :=
    (object.children.filter fun o => ¬ o.name.startsWith "__").length
  let nodeData : NodeData :=
    { name := object.name
      childCount := childCount
      active := true
      transform := object.convLocalMatrix }
  (writeBaseNodeData nodeData, warns)

/-- The method `NodeWriter.writeMeshNode` (lines 119 to 136). -/
def writeMeshNode (ctx : WCtx) (object : BObject) :
    Except String (List Token × List String) := do
  let dividedMeshes0 ← splitObjectByMaterials object ctx.materialsWriter
  let dividedMeshes := splitMeshesForVertexLimit dividedMeshes0
  let nodeData : NodeData :=
    { name := object.name
      childCount := dividedMeshes.length
      active := true
      transform := if object.hasParent then object.convParentInvWorld
        else KMat.identity }
  let headTokens :=
    if object.hasParent || 1 < dividedMeshes.length then
      writeBaseNodeData nodeData
    else []
  let nodeProperties := ctx.nodeSettings.foldl
    (fun np s => applySettingsToNode s np) (NodeProperties.ofNode object)
  let results ← dividedMeshes.mapM fun mesh =>
    writeMesh object.name mesh nodeProperties
  pure (headTokens ++ (results.map Prod.fst).flatten,
    (results.map Prod.snd).flatten)

mutual
/-- The method `NodeWriter.writeObject` (lines 70 to 79): objects with the
reserved double-underscore name are skipped with their whole subtree;
mesh objects must be childless; children are visited in native order. -/
def writeObject (ctx : WCtx) : BObject → Except String (List Token × List String)
  | .mk name otype hasParent mw dims clm cpw md ac children =>
    if ¬ name.startsWith "__" then do
      let head ←
        if otype = "MESH" then
          if children.length ≠ 0 then
            Except.error ("A mesh cannot contain children ('" ++ name ++ "')")
          else
            writeMeshNode ctx (.mk name otype hasParent mw dims clm cpw md ac children)
        else
          pure (writeBaseNode ctx (.mk name otype hasParent mw dims clm cpw md ac children))
      let tail ← writeChildren ctx children
      pure (head.1 ++ tail.1, head.2 ++ tail.2)
    else pure ([], [])
def writeChildren (ctx : WCtx) :
    List BObject → Except String (List Token × List String)
  | [] => pure ([], [])
  | child :: rest => do
    let r ← writeObject ctx child
    let rs ← writeChildren ctx rest
    pure (r.1 ++ rs.1, r.2 ++ rs.2)
end

/-- The top-level emission order of `NodeWriter.write` (lines 64 to 68):
all scene objects stably sorted by `len(k.children)`, then filtered to the
parent-less ones (Python `sorted` is stable; so is `List.mergeSort`). -/
def writeOrderTop (objects : List BObject) : List BObject :=
  (objects.mergeSort fun a b =>
    decide (a.children.length ≤ b.children.length)).filter
    fun o => ¬ o.hasParent

/-- The `writeBaseNode(None, "BlenderFile")` call: the synthetic root
record counting the top-level non-reserved objects, with the identity
transform. -/
def writeRoot (objects : List BObject) : List Token :=
  writeBaseNodeData
    { name := "BlenderFile"
      childCount := (objects.filter fun o =>
        ¬ o.hasParent && ¬ o.name.startsWith "__").length
      active := true
      transform := KMat.identity }

/-- The method `NodeWriter.write` (lines 64 to 68). -/
def write (ctx : WCtx) (objects : List BObject) :
    Except String (List Token × List String) := do
  let rest ← writeChildren ctx (writeOrderTop objects)
  pure (writeRoot objects ++ rest.1, rest.2)

/-! ## Claim-side definitions

Definitions below are written from the words of the specification (not
from the source) and exist to be compared against the source embedding,
plus small observers over the embedding. -/
mutual
/-- The number of descendants of an object: its children and,
recursively, their descendants. -/
def descendantCount : BObject → Nat
  | .mk _ _ _ _ _ _ _ _ _ children =>
    children.length + descendantCountList children
def descendantCountList : List BObject → Nat
  | [] => 0
  | c :: rest => descendantCount c + descendantCountList rest
end

/-- The top-level order claimed by the spec: parent-less objects in
ascending order of descendant count, ties in stable original order. -/
def claimTopOrder (objects : List BObject) : List BObject :=
  (objects.mergeSort fun a b =>
    decide (descendantCount a ≤ descendantCount b)).filter
    fun o => ¬ o.hasParent

/-- The UV fallback exactly as the spec words it: project the local-space
(pre-world-transform) vertex position onto the object X/Y dimensions,
then apply the active material texture transform when one exists. -/
def specFallbackUvLocal (object : BObject) (mesh : BMeshData)
    (materialId : Nat) (v : BVertex) : Q2 :=
  let x := v.co.1 / object.dimensions.1
  let y := v.co.2.1 / object.dimensions.2.1
  match mesh.materials.getD materialId none with
  | none => (x, y)
  | some mat =>
    match getActiveMaterialTextureSlot mat with
    | none => (x, y)
    | some ts => (x * ts.scale.1 + ts.offset.1, y * ts.scale.2 + ts.offset.2)

/-- The per-face triangle emission order claimed by the spec, by vertex
value: `(B, C, A)` for a face `[A, B, C]` and additionally `(C, D, A)`
for a quad `[A, B, C, D]`. -/
def windingValues (vs : List UvVertex) : List UvVertex :=
  [vs.getD 1 default, vs.getD 2 default, vs.getD 0 default] ++
    (if vs.length = 4 then
      [vs.getD 2 default, vs.getD 3 default, vs.getD 0 default]
    else [])

mutual
/-- The names of a subtree in preorder, children in native order. -/
def preorderNames : BObject → List String
  | .mk n _ _ _ _ _ _ _ _ children => n :: preorderNamesList children
def preorderNamesList : List BObject → List String
  | [] => []
  | c :: rest => preorderNames c ++ preorderNamesList rest
end

/-- The string values among a token stream (each node record writes its
name as its single string token). -/
def strTokens (tokens : List Token) : List String :=
  tokens.filterMap fun t =>
    match t with
    | .strv s => some s
    | _ => none

mutual
/-- Every object of the subtree is a non-mesh with a non-reserved name. -/
def allPlain : BObject → Bool
  | .mk n t _ _ _ _ _ _ _ children =>
    (!(n.startsWith "__")) && (!(t = "MESH" : Bool)) && allPlainList children
def allPlainList : List BObject → Bool
  | [] => true
  | c :: rest => allPlain c && allPlainList rest
end

/-- The triangle stream of one material partition by vertex value, face
by face, as claimed: each face contributes its winding-transformed
vertex values. -/
def claimedFaceStream (object : BObject) (meshCopy : BMeshData)
    (materialIndex : Nat) : List UvVertex :=
  (meshCopy.tessfaces.filter fun face =>
    materialIndex = face.material_index).flatMap fun face =>
      windingValues (faceVertexValues object meshCopy materialIndex face)

def c8Cube : List UvVertex :=
  [⟨(1/2, 1/2, 1/2), (0, 0, 0), (0, 0), (1, 0, 0)⟩,
   ⟨(1/2, 1/2, -(1/2)), (0, 0, 0), (0, 0), (1, 0, 0)⟩,
   ⟨(1/2, -(1/2), 1/2), (0, 0, 0), (0, 0), (1, 0, 0)⟩,
   ⟨(1/2, -(1/2), -(1/2)), (0, 0, 0), (0, 0), (1, 0, 0)⟩,
   ⟨(-(1/2), 1/2, 1/2), (0, 0, 0), (0, 0), (1, 0, 0)⟩,
   ⟨(-(1/2), 1/2, -(1/2)), (0, 0, 0), (0, 0), (1, 0, 0)⟩,
   ⟨(-(1/2), -(1/2), 1/2), (0, 0, 0), (0, 0), (1, 0, 0)⟩,
   ⟨(-(1/2), -(1/2), -(1/2)), (0, 0, 0), (0, 0), (1, 0, 0)⟩]

def sampleQuadObj : BObject := .mk "Quad" "MESH" false
  (fun v => v) (1, 1, 1) .identity .identity
  ⟨[some ⟨"mat", none⟩],
   [⟨(0, 0, 0), (0, 0, 1)⟩, ⟨(1, 0, 0), (0, 0, 1)⟩,
    ⟨(1, 1, 0), (0, 0, 1)⟩, ⟨(0, 1, 0), (0, 0, 1)⟩],
   [⟨0, [0, 1, 2, 3], 0⟩],
   some ⟨[[(0, 0), (1, 0), (1, 1), (0, 1)]]⟩⟩
  default []

def sampleQuadMesh : Mesh :=
  ⟨some 5,
   [⟨(0, 0, 0), (0, 1, 0), (0, 0), (1, 0, 0)⟩,
    ⟨(1, 0, 0), (0, 1, 0), (1, 0), (1, 0, 0)⟩,
    ⟨(1, 0, -1), (0, 1, 0), (1, -1), (1, 0, 0)⟩,
    ⟨(0, 0, -1), (0, 1, 0), (0, -1), (1, 0, 0)⟩],
   [1, 2, 0, 2, 3, 0]⟩

/-! ## UV fallback (C3) -/

/-- The UV fallback as the code actually computes it: from the
world-transformed vertex position (the object world matrix applied to
the local position), projected onto the object X/Y dimensions, then
transformed by the active material texture slot when one exists. -/
def specFallbackUvWorld (object : BObject) (mesh : BMeshData)
    (materialId : Nat) (v : BVertex) : Q2 :=
  let w := object.matrixWorld v.co
  let x := w.1 / object.dimensions.1
  let y := w.2.1 / object.dimensions.2.1
  match mesh.materials.getD materialId none with
  | none => (x, y)
  | some mat =>
    match getActiveMaterialTextureSlot mat with
    | none => (x, y)
    | some ts => (x * ts.scale.1 + ts.offset.1, y * ts.scale.2 + ts.offset.2)

def c3Obj : BObject := .mk "Plane" "MESH" false
  (fun v => (v.1 + 1, v.2.1, v.2.2)) (2, 2, 1) .identity .identity
  ⟨[some ⟨"m", none⟩],
   [⟨(0, 0, 0), (0, 0, 1)⟩, ⟨(1, 0, 0), (0, 0, 1)⟩, ⟨(0, 1, 0), (0, 0, 1)⟩],
   [⟨0, [0, 1, 2], 0⟩], none⟩
  default []

/-! ## Top-level emission order (C2) -/
def c2Leaf (n : String) : BObject :=
  .mk n "Node" true (fun v => v) (1, 1, 1) .identity .identity
    default default []

def c2Objects : List BObject :=
  [.mk "A" "Node" false (fun v => v) (1, 1, 1) .identity .identity
     default default
     [.mk "a1" "Node" true (fun v => v) (1, 1, 1) .identity .identity
        default default [c2Leaf "a1a", c2Leaf "a1b"]],
   .mk "B" "Node" false (fun v => v) (1, 1, 1) .identity .identity
     default default [c2Leaf "b1", c2Leaf "b2"],
   .mk "a1" "Node" true (fun v => v) (1, 1, 1) .identity .identity
     default default [c2Leaf "a1a", c2Leaf "a1b"],
   c2Leaf "b1", c2Leaf "b2", c2Leaf "a1a", c2Leaf "a1b"]

theorem dictWF_nil {α : Type} : dictWF ([] : List (α × Nat)) := by
  constructor <;> simp

theorem mem_of_lookupVal {α : Type} [DecidableEq α] {m : List (α × Nat)}
    {key : α} {j : Nat} (h : lookupVal m key = some j) : (key, j) ∈ m := by
  induction m with
  | nil => simp [lookupVal] at h
  | cons p rest ih =>
    obtain ⟨k, v⟩ := p
    by_cases hk : k = key
    · subst hk
      rw [lookupVal, if_pos rfl] at h
      obtain rfl := Option.some.inj h
      exact List.mem_cons_self _ _
    · rw [lookupVal, if_neg hk] at h
      exact List.mem_cons_of_mem _ (ih h)

theorem lookupVal_eq_none {α : Type} [DecidableEq α] {m : List (α × Nat)}
    {key : α} : lookupVal m key = none ↔ key ∉ m.map Prod.fst := by
  induction m with
  | nil => simp [lookupVal]
  | cons p rest ih =>
    obtain ⟨k, v⟩ := p
    rw [lookupVal]
    by_cases hk : k = key
    · subst hk
      simp
    · rw [if_neg hk, ih]
      simp only [List.map_cons, List.mem_cons]
      constructor
      · intro h hor
        rcases hor with h1 | h2
        · exact hk h1.symm
        · exact h h2
      · intro h h2
        exact h (Or.inr h2)

theorem dictWF_mem_val {α : Type} {m : List (α × Nat)} (hwf : dictWF m)
    {key : α} {j : Nat} (hmem : (key, j) ∈ m) :
    j < m.length ∧ ∀ d : α, (m.map Prod.fst).getD j d = key := by
  obtain ⟨n, hget⟩ := List.mem_iff_get.mp hmem
  have hn : n.val < m.length := n.isLt
  have hgetElem : m[n.val] = (key, j) := by
    simpa [List.get_eq_getElem] using hget
  have h1 : (m.map Prod.snd)[n.val]? = some j := by
    rw [List.getElem?_map, List.getElem?_eq_getElem hn, hgetElem]
    rfl
  rw [hwf.1] at h1
  have hj : j = n.val := by
    rw [List.getElem?_range hn] at h1
    exact (Option.some.inj h1).symm
  subst hj
  refine ⟨hn, fun d => ?_⟩
  rw [List.getD_eq_getElem?_getD, List.getElem?_map,
    List.getElem?_eq_getElem hn, hgetElem]
  rfl

theorem keyAt_append {α : Type} [Inhabited α] {m t : List (α × Nat)} {j : Nat}
    (hj : j < m.length) : keyAt (m ++ t) j = keyAt m j := by
  unfold keyAt
  rw [List.map_append, List.getD_eq_getElem?_getD,
    List.getElem?_append_left (by simpa using hj), ← List.getD_eq_getElem?_getD]

theorem dictInsert_spec {α : Type} [DecidableEq α] [Inhabited α]
    {m : List (α × Nat)} (hwf : dictWF m) (key : α) :
    dictWF (dictInsert m key).1 ∧
    (∃ t, (dictInsert m key).1 = m ++ t) ∧
    (dictInsert m key).2 < (dictInsert m key).1.length ∧
    keyAt (dictInsert m key).1 (dictInsert m key).2 = key ∧
    m.length ≤ (dictInsert m key).1.length ∧
    (dictInsert m key).1.length ≤ m.length + 1 := by
  cases hlook : lookupVal m key with
  | some j =>
    simp only [dictInsert, hlook]
    obtain ⟨hj, hkey⟩ := dictWF_mem_val hwf (mem_of_lookupVal hlook)
    exact ⟨hwf, ⟨[], by simp⟩, hj, hkey default, le_refl _, by simp⟩
  | none =>
    simp only [dictInsert, hlook]
    have hnotin : key ∉ m.map Prod.fst := lookupVal_eq_none.mp hlook
    have hwf' : dictWF (m ++ [(key, m.length)]) := by
      constructor
      · rw [List.map_append, hwf.1]
        simp [List.range_succ]
      · rw [List.map_append]
        refine List.Nodup.append hwf.2 (by simp) ?_
        intro a ha hb
        simp only [List.map_cons, List.map_nil, List.mem_singleton] at hb
        subst hb
        exact hnotin ha
    refine ⟨hwf', ⟨[(key, m.length)], rfl⟩, by simp, ?_, by simp, by simp⟩
    unfold keyAt
    rw [List.map_append]
    have hlen : (List.map Prod.fst m).length = m.length := by simp
    rw [List.getD_eq_getElem?_getD,
      show List.map Prod.fst [(key, m.length)] = [key] from rfl,
      ← hlen, List.getElem?_concat_length]
    rfl

theorem dictInsertMany_spec {α : Type} [DecidableEq α] [Inhabited α] :
    ∀ (ks : List α) (m : List (α × Nat)) (acc : List Nat), dictWF m →
    dictWF (dictInsertMany m acc ks).1 ∧
    (∃ t, (dictInsertMany m acc ks).1 = m ++ t) ∧
    m.length ≤ (dictInsertMany m acc ks).1.length ∧
    (dictInsertMany m acc ks).1.length ≤ m.length + ks.length ∧
    (∃ js, (dictInsertMany m acc ks).2 = acc ++ js ∧
      js.length = ks.length ∧
      (∀ j ∈ js, j < (dictInsertMany m acc ks).1.length) ∧
      js.map (fun j => keyAt (dictInsertMany m acc ks).1 j) = ks) := by
  intro ks
  induction ks with
  | nil =>
    intro m acc hwf
    exact ⟨hwf, ⟨[], by simp [dictInsertMany]⟩, by simp [dictInsertMany],
      by simp [dictInsertMany], ⟨[], by simp [dictInsertMany]⟩⟩
  | cons k ks ih =>
    intro m acc hwf
    obtain ⟨hwf1, ⟨t1, ht1⟩, hlt1, hkey1, hlow1, hhigh1⟩ := dictInsert_spec hwf k
    have hrec := ih (dictInsert m k).1 (acc ++ [(dictInsert m k).2]) hwf1
    obtain ⟨hwfR, ⟨t2, ht2⟩, hleR, hubR, ⟨js, hjs, hjslen, hjsb, hjsmap⟩⟩ := hrec
    have hstep : dictInsertMany m acc (k :: ks) =
        dictInsertMany (dictInsert m k).1 (acc ++ [(dictInsert m k).2]) ks := rfl
    rw [hstep]
    refine ⟨hwfR, ⟨t1 ++ t2, by rw [ht2, ht1, List.append_assoc]⟩,
      le_trans hlow1 hleR, ?_, ?_⟩
    · have : (dictInsertMany (dictInsert m k).1 (acc ++ [(dictInsert m k).2]) ks).1.length
          ≤ (dictInsert m k).1.length + ks.length := hubR
      simp only [List.length_cons]
      omega
    · refine ⟨(dictInsert m k).2 :: js, by simp [hjs], by simp [hjslen], ?_, ?_⟩
      · intro j hj
        rcases List.mem_cons.mp hj with h | h
        · subst h
          exact lt_of_lt_of_le hlt1 hleR
        · exact hjsb j h
      · simp only [List.map_cons, hjsmap, List.cons.injEq, and_true]
        rw [ht2, keyAt_append hlt1]
        exact hkey1

theorem dictWF_pairwise_lt {α : Type} {m : List (α × Nat)} (hwf : dictWF m) :
    m.Pairwise (fun a b => a.2 < b.2) := by
  have h := List.pairwise_lt_range m.length
  rw [← hwf.1] at h
  exact List.pairwise_map.mp h

/-- Under the dict invariant, the Python read-back
`sorted(d.items(), key=lambda k: k[1])` is the identity: the values are
already ascending in insertion order. -/
theorem dictWF_mergeSort_eq {α : Type} {m : List (α × Nat)} (hwf : dictWF m) :
    m.mergeSort (fun a b => decide (a.2 ≤ b.2)) = m := by
  apply List.mergeSort_of_sorted
  refine (dictWF_pairwise_lt hwf).imp ?_
  intro a b hab
  simpa using le_of_lt hab

theorem dictInsert_keys {α : Type} [DecidableEq α] (m : List (α × Nat)) (k : α) :
    ((dictInsert m k).1).map Prod.fst = pyKeysInsert (m.map Prod.fst) k := by
  unfold dictInsert pyKeysInsert
  cases hlook : lookupVal m k with
  | some j =>
    rw [if_pos (List.mem_map_of_mem Prod.fst (mem_of_lookupVal hlook))]
  | none =>
    rw [if_neg (lookupVal_eq_none.mp hlook), List.map_append]
    rfl

theorem dictInsertMany_keys {α : Type} [DecidableEq α] :
    ∀ (ks : List α) (m : List (α × Nat)) (acc : List Nat),
    ((dictInsertMany m acc ks).1).map Prod.fst =
      ks.foldl pyKeysInsert (m.map Prod.fst) := by
  intro ks
  induction ks with
  | nil => intro m acc; simp [dictInsertMany]
  | cons k ks ih =>
    intro m acc
    have hstep : dictInsertMany m acc (k :: ks) =
        dictInsertMany (dictInsert m k).1 (acc ++ [(dictInsert m k).2]) ks := rfl
    rw [hstep, ih, List.foldl_cons, dictInsert_keys]

theorem getD_map_of_lt {α β : Type} (f : α → β) {l : List α} {j : Nat}
    (h : j < l.length) (d : β) (d' : α) :
    (l.map f).getD j d = f (l.getD j d') := by
  rw [List.getD_eq_getElem?_getD, List.getElem?_map,
    List.getElem?_eq_getElem h, List.getD_eq_getElem?_getD,
    List.getElem?_eq_getElem h]
  rfl

theorem buildChunkAux_spec (limit : Nat) :
    ∀ (idx : List Nat) (m : List (Nat × Nat)) (ni : List Nat), dictWF m →
    dictWF (buildChunkAux limit idx m ni).1 ∧
    (∃ t, (buildChunkAux limit idx m ni).1 = m ++ t) ∧
    m.length ≤ (buildChunkAux limit idx m ni).1.length ∧
    (∃ consumed js,
      idx = consumed ++ (buildChunkAux limit idx m ni).2.2 ∧
      (buildChunkAux limit idx m ni).2.1 = ni ++ js ∧
      js.length = consumed.length ∧
      (∀ j ∈ js, j < (buildChunkAux limit idx m ni).1.length) ∧
      js.map (fun j => keyAt (buildChunkAux limit idx m ni).1 j) = consumed ∧
      (3 ∣ idx.length → 3 ∣ consumed.length)) ∧
    (m.length < limit - 3 → (buildChunkAux limit idx m ni).1.length < limit) ∧
    ((buildChunkAux limit idx m ni).2.2 ≠ [] →
      limit - 3 ≤ (buildChunkAux limit idx m ni).1.length) := by
  intro idx m ni
  induction idx, m, ni using buildChunkAux.induct limit with
  | case1 m ni =>
    intro hwf
    rw [buildChunkAux]
    refine ⟨hwf, ⟨[], by simp⟩, le_refl _, ⟨[], [], by simp, by simp, rfl,
      by simp, by simp, by simp⟩, ?_, by simp⟩
    intro h
    show m.length < limit
    omega
  | case2 m ni a rest hguard =>
    intro hwf
    rw [buildChunkAux]
    simp only [if_pos hguard]
    obtain ⟨hwfR, ⟨t, ht⟩, hlow, hhigh, ⟨js, hjs, hjslen, hjsb, hjsmap⟩⟩ :=
      dictInsertMany_spec ((a :: rest).take 3) m ni hwf
    refine ⟨hwfR, ⟨t, ht⟩, hlow,
      ⟨(a :: rest).take 3, js, by simp, hjs, by simp [hjslen], hjsb, hjsmap, ?_⟩,
      ?_, fun _ => hguard⟩
    · intro hdvd
      have hdl : (3 : Nat) ∣ rest.length + 1 := by simpa using hdvd
      have h3 : ((a :: rest).take 3).length = 3 := by
        rw [List.length_take, List.length_cons]
        omega
      rw [h3]
    · intro hm
      have : (dictInsertMany m ni ((a :: rest).take 3)).1.length ≤
          m.length + ((a :: rest).take 3).length := hhigh
      have h4 : ((a :: rest).take 3).length ≤ 3 := by simp
      omega
  | case3 m ni a rest hguard ih =>
    intro hwf
    rw [buildChunkAux]
    simp only [if_neg hguard]
    obtain ⟨hwf1, ⟨t1, ht1⟩, hlow1, hhigh1, ⟨js0, hjs0, hjs0len, hjs0b, hjs0map⟩⟩ :=
      dictInsertMany_spec ((a :: rest).take 3) m ni hwf
    obtain ⟨hwfR, ⟨t2, ht2⟩, hlowR, ⟨consumed, js1, hcr, hniR, hlenR, hbR, hmapR, hdvdR⟩,
      hboundR, hlastR⟩ := ih hwf1
    set r := dictInsertMany m ni ((a :: rest).take 3) with hr
    set res := buildChunkAux limit ((a :: rest).drop 3) r.1 r.2 with hres
    refine ⟨hwfR, ⟨t1 ++ t2, by rw [ht2, ht1, List.append_assoc]⟩,
      le_trans hlow1 hlowR,
      ⟨(a :: rest).take 3 ++ consumed, js0 ++ js1, ?_, ?_,
        by rw [List.length_append, List.length_append, hjs0len, hlenR], ?_, ?_, ?_⟩,
      ?_, hlastR⟩
    · rw [List.append_assoc, ← hcr]
      simp
    · rw [hniR, hjs0, List.append_assoc]
    · intro j hj
      rcases List.mem_append.mp hj with h | h
      · exact lt_of_lt_of_le (hjs0b j h) hlowR
      · exact hbR j h
    · rw [List.map_append, hmapR]
      congr 1
      rw [← hjs0map]
      apply List.map_congr_left
      intro j hj
      rw [ht2, keyAt_append (hjs0b j hj)]
    · intro hdvd
      have hdl : (3 : Nat) ∣ rest.length + 1 := by simpa using hdvd
      have h3 : ((a :: rest).take 3).length = 3 := by
        rw [List.length_take, List.length_cons]
        omega
      have h5 : (3 : Nat) ∣ ((a :: rest).drop 3).length := by
        rw [List.length_drop, List.length_cons]
        omega
      have h6 := hdvdR h5
      rw [List.length_append, h3]
      omega
    · intro _
      have hg : r.1.length < limit - 3 := by omega
      exact hboundR hg

theorem buildChunks_ne_nil (limit : Nat) {idx : List Nat} (h : idx ≠ []) :
    buildChunks limit idx ≠ [] := by
  match idx with
  | [] => exact absurd rfl h
  | a :: rest =>
    rw [buildChunks]
    simp

theorem buildChunks_spec (limit : Nat) (hlimit : 3 < limit) :
    ∀ (idx : List Nat),
    (∀ c ∈ buildChunks limit idx, dictWF c.1 ∧ c.1.length < limit ∧
      (∀ j ∈ c.2, j < c.1.length) ∧
      (3 ∣ idx.length → 3 ∣ c.2.length)) ∧
    ((buildChunks limit idx).flatMap (fun c => c.2.map (fun j => keyAt c.1 j)) =
      idx) ∧
    (∀ c ∈ (buildChunks limit idx).dropLast, limit - 3 ≤ c.1.length) := by
  intro idx
  induction idx using buildChunks.induct limit with
  | case1 =>
    rw [buildChunks]
    simp
  | case2 a rest ih =>
      obtain ⟨hwfC, ⟨tC, htC⟩, _, ⟨consumed, js, hcr, hniC, hlenC, hbC, hmapC, hdvdC⟩,
        hboundC, hlastC⟩ := buildChunkAux_spec limit (a :: rest) [] [] dictWF_nil
      obtain ⟨ih1, ih2, ih3⟩ := ih
      have hdvdrest : 3 ∣ (a :: rest).length →
          3 ∣ (buildChunkAux limit (a :: rest) [] []).2.2.length := by
        intro h
        have := hdvdC h
        have hlen := congrArg List.length hcr
        rw [List.length_append] at hlen
        omega
      rw [buildChunks]
      refine ⟨?_, ?_, ?_⟩
      · intro c hc
        rcases List.mem_cons.mp hc with h | h
        · subst h
          refine ⟨hwfC, hboundC (by simp only [List.length_nil]; omega), ?_, ?_⟩
          · intro j hj
            apply hbC
            rw [hniC] at hj
            simpa using hj
          · intro hdvd
            have := hdvdC hdvd
            have : js.length = consumed.length := hlenC
            simp only [hniC, List.nil_append, List.length_append]
            simpa [hlenC] using hdvdC hdvd
        · obtain ⟨c1, c2, c3, c4⟩ := ih1 c h
          exact ⟨c1, c2, c3, fun hd => c4 (hdvdrest hd)⟩
      · rw [List.flatMap_cons, ih2, hniC]
        simp only [List.nil_append]
        rw [hmapC, ← hcr]
      · intro c hc
        by_cases hrest2 : (buildChunkAux limit (a :: rest) [] []).2.2 = []
        · rw [hrest2] at hc
          rw [buildChunks] at hc
          simp at hc
        · have hne := buildChunks_ne_nil limit hrest2
          rw [List.dropLast_cons_of_ne_nil hne] at hc
          rcases List.mem_cons.mp hc with h | h
          · subst h
            exact hlastC hrest2
          · exact ih3 c h

theorem splitMeshes_mem_elim {meshes : List Mesh} {m' : Mesh}
    (hm : m' ∈ splitMeshesForVertexLimit meshes) :
    ∃ mesh ∈ meshes,
      (¬ 2 ^ 16 < mesh.vertices.length ∧ m' = mesh) ∨
      (2 ^ 16 < mesh.vertices.length ∧
        ∃ c ∈ buildChunks (2 ^ 16) mesh.indices, m' = chunkToMesh mesh c) := by
  obtain ⟨mesh, hmesh, hmem⟩ := List.mem_flatMap.mp hm
  refine ⟨mesh, hmesh, ?_⟩
  by_cases hbig : 2 ^ 16 < mesh.vertices.length
  · rw [if_pos hbig] at hmem
    obtain ⟨c, hc, hcm⟩ := List.mem_map.mp hmem
    exact Or.inr ⟨hbig, c, hc, hcm.symm⟩
  · rw [if_neg hbig] at hmem
    exact Or.inl ⟨hbig, (List.mem_singleton.mp hmem)⟩

theorem chunkToMesh_len (mesh : Mesh) (c : List (Nat × Nat) × List Nat) :
    (chunkToMesh mesh c).vertices.length = c.1.length := by
  unfold chunkToMesh
  simp

theorem splitMeshes_len_le {meshes : List Mesh} {m' : Mesh}
    (hm : m' ∈ splitMeshesForVertexLimit meshes) :
    m'.vertices.length ≤ 2 ^ 16 := by
  obtain ⟨mesh, _, hcase⟩ := splitMeshes_mem_elim hm
  rcases hcase with ⟨hsmall, rfl⟩ | ⟨hbig, c, hc, rfl⟩
  · omega
  · obtain ⟨hprops, _, _⟩ := buildChunks_spec (2 ^ 16) (by norm_num) mesh.indices
    obtain ⟨_, hlen, _, _⟩ := hprops c hc
    rw [chunkToMesh_len]
    omega

theorem chunkMesh_vertices_eq {verts : List UvVertex}
    {c : List (Nat × Nat) × List Nat} (hwf : dictWF c.1) :
    (c.1.mergeSort (fun a b => decide (a.2 ≤ b.2))).map
      (fun p => verts.getD p.1 default) =
    (c.1.map Prod.fst).map (fun k => verts.getD k default) := by
  rw [dictWF_mergeSort_eq hwf, List.map_map]
  rfl

theorem chunkMesh_decode {verts : List UvVertex}
    {c : List (Nat × Nat) × List Nat} (hwf : dictWF c.1)
    (hb : ∀ j ∈ c.2, j < c.1.length) :
    (c.2.map fun j =>
      ((c.1.mergeSort (fun a b => decide (a.2 ≤ b.2))).map
        (fun p => verts.getD p.1 default)).getD j default) =
    (c.2.map fun j => keyAt c.1 j).map (fun k => verts.getD k default) := by
  rw [chunkMesh_vertices_eq hwf, List.map_map, List.map_map]
  apply List.map_congr_left
  intro j hj
  have hjlt : j < c.1.length := hb j hj
  rw [Function.comp_apply, getD_map_of_lt ((fun k => verts.getD k default) ∘ Prod.fst) hjlt _ default]
  unfold keyAt
  rw [getD_map_of_lt Prod.fst hjlt _ default]
  rfl

theorem splitMeshes_id_of_small {meshes : List Mesh}
    (h : ∀ mesh ∈ meshes, mesh.vertices.length ≤ 2 ^ 16) :
    splitMeshesForVertexLimit meshes = meshes := by
  induction meshes with
  | nil => rfl
  | cons m ms ih =>
    unfold splitMeshesForVertexLimit at *
    rw [List.flatMap_cons, if_neg (by have := h m (by simp); omega),
      ih fun mesh hm => h mesh (List.mem_cons_of_mem _ hm)]
    rfl

theorem splitMeshes_big_eq (mesh : Mesh)
    (hbig : 2 ^ 16 < mesh.vertices.length) :
    splitMeshesForVertexLimit [mesh] =
      (buildChunks (2 ^ 16) mesh.indices).map (chunkToMesh mesh) := by
  unfold splitMeshesForVertexLimit
  rw [List.flatMap_cons, if_pos hbig]
  simp

theorem splitMeshes_reconstruct (mesh : Mesh)
    (hbig : 2 ^ 16 < mesh.vertices.length) :
    (splitMeshesForVertexLimit [mesh]).flatMap decodeMesh = decodeMesh mesh := by
  rw [splitMeshes_big_eq mesh hbig]
  obtain ⟨hprops, hflat, _⟩ := buildChunks_spec (2 ^ 16) (by norm_num) mesh.indices
  rw [List.flatMap_map]
  have hpt : ∀ c ∈ buildChunks (2 ^ 16) mesh.indices,
      decodeMesh (chunkToMesh mesh c) =
      (c.2.map fun j => keyAt c.1 j).map
        (fun k => mesh.vertices.getD k default) := by
    intro c hc
    obtain ⟨hwf, _, hb, _⟩ := hprops c hc
    exact chunkMesh_decode hwf hb
  calc (buildChunks (2 ^ 16) mesh.indices).flatMap
          (fun c => decodeMesh (chunkToMesh mesh c))
      = (buildChunks (2 ^ 16) mesh.indices).flatMap (fun c =>
          (c.2.map fun j => keyAt c.1 j).map
            (fun k => mesh.vertices.getD k default)) := by
        apply List.flatMap_congr hpt
    _ = ((buildChunks (2 ^ 16) mesh.indices).flatMap (fun c =>
          c.2.map fun j => keyAt c.1 j)).map
            (fun k => mesh.vertices.getD k default) := by
        rw [List.map_flatMap]
    _ = mesh.indices.map (fun k => mesh.vertices.getD k default) := by
        rw [hflat]
    _ = decodeMesh mesh := rfl

/-! ## Node settings: last matching rule wins (C9) -/
theorem applySettingsToNode_not_match (s : NodeSettings)
    (node : NodeProperties) (hm : doesNodeNameMatch s node.name = false) :
    applySettingsToNode s node = node := by
  unfold applySettingsToNode
  rw [if_pos (by simp [hm])]

theorem applySettingsToNode_match (s : NodeSettings) (node : NodeProperties)
    (hm : doesNodeNameMatch s node.name = true) :
    applySettingsToNode s node =
      { name := node.name
        lodIn := s.lodIn.getD node.lodIn
        lodOut := s.lodOut.getD node.lodOut
        layer := s.layer.getD node.layer
        castShadows := s.castShadows.getD node.castShadows
        visible := s.isVisible.getD node.visible
        transparent := s.isTransparent.getD node.transparent
        renderable := s.isRenderable.getD node.renderable } := by
  unfold applySettingsToNode
  rw [if_neg (by simp [hm])]
  cases s.lodIn <;> cases s.lodOut <;> cases s.layer <;>
    cases s.castShadows <;> cases s.isVisible <;> cases s.isTransparent <;>
    cases s.isRenderable <;> rfl

theorem applySettingsToNode_name (s : NodeSettings) (node : NodeProperties) :
    (applySettingsToNode s node).name = node.name := by
  by_cases hm : doesNodeNameMatch s node.name
  · rw [applySettingsToNode_match s node hm]
  · rw [applySettingsToNode_not_match s node (by simpa using hm)]

theorem getLast?_getD_cons {α : Type} (a d : α) (l : List α) :
    ((a :: l).getLast?).getD d = (l.getLast?).getD a := by
  rw [List.getLast?_cons]
  rfl

theorem foldl_last_wins {β : Type} (pf : NodeSettings → Option β)
    (npf : NodeProperties → β)
    (hstep : ∀ s node, doesNodeNameMatch s node.name = true →
      npf (applySettingsToNode s node) = (pf s).getD (npf node)) :
    ∀ (rs : List NodeSettings) (node : NodeProperties),
    npf (rs.foldl (fun np s => applySettingsToNode s np) node) =
      ((rs.filter fun r =>
        doesNodeNameMatch r node.name).filterMap pf).getLast?.getD
        (npf node) := by
  intro rs
  induction rs with
  | nil => intro node; rfl
  | cons r rs ih =>
    intro node
    rw [List.foldl_cons]
    by_cases hm : doesNodeNameMatch r node.name
    · have hname := applySettingsToNode_name r node
      rw [ih (applySettingsToNode r node)]
      simp only [hname]
      rw [List.filter_cons_of_pos (by simpa using hm)]
      rw [hstep r node hm]
      cases hpf : pf r with
      | none =>
        rw [List.filterMap_cons_none hpf]
        simp [hpf]
      | some v =>
        rw [List.filterMap_cons_some hpf]
        rw [getLast?_getD_cons]
        simp [hpf]
    · rw [applySettingsToNode_not_match r node (by simpa using hm)]
      rw [ih node, List.filter_cons_of_neg (by simpa using hm)]

/-- C9: applying the declared node-setting rules in declaration order,
each matching rule overwrites exactly the fields its configuration
defines, so for every field of {lodIn, lodOut, layer, castShadows,
visible, transparent, renderable} the final value is the one defined by
the last matching rule that defines it, and a field no matching rule
defines keeps the node's original value (the name is never touched). -/
theorem C9_node_settings_precedence (rs : List NodeSettings)
    (node : NodeProperties) :
    ((rs.foldl (fun np s => applySettingsToNode s np) node).name =
      node.name) ∧
    ((rs.foldl (fun np s => applySettingsToNode s np) node).lodIn =
      ((rs.filter fun r => doesNodeNameMatch r node.name).filterMap
        (fun r => r.lodIn)).getLast?.getD node.lodIn) ∧
    ((rs.foldl (fun np s => applySettingsToNode s np) node).lodOut =
      ((rs.filter fun r => doesNodeNameMatch r node.name).filterMap
        (fun r => r.lodOut)).getLast?.getD node.lodOut) ∧
    ((rs.foldl (fun np s => applySettingsToNode s np) node).layer =
      ((rs.filter fun r => doesNodeNameMatch r node.name).filterMap
        (fun r => r.layer)).getLast?.getD node.layer) ∧
    ((rs.foldl (fun np s => applySettingsToNode s np) node).castShadows =
      ((rs.filter fun r => doesNodeNameMatch r node.name).filterMap
        (fun r => r.castShadows)).getLast?.getD node.castShadows) ∧
    ((rs.foldl (fun np s => applySettingsToNode s np) node).visible =
      ((rs.filter fun r => doesNodeNameMatch r node.name).filterMap
        (fun r => r.isVisible)).getLast?.getD node.visible) ∧
    ((rs.foldl (fun np s => applySettingsToNode s np) node).transparent =
      ((rs.filter fun r => doesNodeNameMatch r node.name).filterMap
        (fun r => r.isTransparent)).getLast?.getD node.transparent) ∧
    ((rs.foldl (fun np s => applySettingsToNode s np) node).renderable =
      ((rs.filter fun r => doesNodeNameMatch r node.name).filterMap
        (fun r => r.isRenderable)).getLast?.getD node.renderable) := by
  refine ⟨?_, ?_, ?_, ?_, ?_, ?_, ?_, ?_⟩
  · induction rs generalizing node with
    | nil => rfl
    | cons r rs ih =>
      rw [List.foldl_cons, ih, applySettingsToNode_name]
  · exact foldl_last_wins (fun r => r.lodIn) (fun np => np.lodIn)
      (fun s node hm => by rw [applySettingsToNode_match s node hm]) rs node
  · exact foldl_last_wins (fun r => r.lodOut) (fun np => np.lodOut)
      (fun s node hm => by rw [applySettingsToNode_match s node hm]) rs node
  · exact foldl_last_wins (fun r => r.layer) (fun np => np.layer)
      (fun s node hm => by rw [applySettingsToNode_match s node hm]) rs node
  · exact foldl_last_wins (fun r => r.castShadows) (fun np => np.castShadows)
      (fun s node hm => by rw [applySettingsToNode_match s node hm]) rs node
  · exact foldl_last_wins (fun r => r.isVisible) (fun np => np.visible)
      (fun s node hm => by rw [applySettingsToNode_match s node hm]) rs node
  · exact foldl_last_wins (fun r => r.isTransparent) (fun np => np.transparent)
      (fun s node hm => by rw [applySettingsToNode_match s node hm]) rs node
  · exact foldl_last_wins (fun r => r.isRenderable) (fun np => np.renderable)
      (fun s node hm => by rw [applySettingsToNode_match s node hm]) rs node

/-! ## Bounding sphere (C8) -/
theorem stepMaxX_maxX (st : BSphereState) (c : ℚ) :
    (stepMaxX st c).maxX = max st.maxX c := by
  unfold stepMaxX
  split <;> rename_i h <;> symm
  · exact max_eq_right (le_of_lt h)
  · exact max_eq_left (not_lt.mp h)

theorem stepMaxX_maxY (st : BSphereState) (c : ℚ) :
    (stepMaxX st c).maxY = st.maxY := by
  unfold stepMaxX
  split <;> rfl

theorem stepMaxX_maxZ (st : BSphereState) (c : ℚ) :
    (stepMaxX st c).maxZ = st.maxZ := by
  unfold stepMaxX
  split <;> rfl

theorem stepMaxX_minX (st : BSphereState) (c : ℚ) :
    (stepMaxX st c).minX = st.minX := by
  unfold stepMaxX
  split <;> rfl

theorem stepMaxX_minY (st : BSphereState) (c : ℚ) :
    (stepMaxX st c).minY = st.minY := by
  unfold stepMaxX
  split <;> rfl

theorem stepMaxX_minZ (st : BSphereState) (c : ℚ) :
    (stepMaxX st c).minZ = st.minZ := by
  unfold stepMaxX
  split <;> rfl

theorem stepMinX_maxX (st : BSphereState) (c : ℚ) :
    (stepMinX st c).maxX = st.maxX := by
  unfold stepMinX
  split <;> rfl

theorem stepMinX_maxY (st : BSphereState) (c : ℚ) :
    (stepMinX st c).maxY = st.maxY := by
  unfold stepMinX
  split <;> rfl

theorem stepMinX_maxZ (st : BSphereState) (c : ℚ) :
    (stepMinX st c).maxZ = st.maxZ := by
  unfold stepMinX
  split <;> rfl

theorem stepMinX_minX (st : BSphereState) (c : ℚ) :
    (stepMinX st c).minX = min st.minX c := by
  unfold stepMinX
  split <;> rename_i h <;> symm
  · exact min_eq_right (le_of_lt h)
  · exact min_eq_left (not_lt.mp h)

theorem stepMinX_minY (st : BSphereState) (c : ℚ) :
    (stepMinX st c).minY = st.minY := by
  unfold stepMinX
  split <;> rfl

theorem stepMinX_minZ (st : BSphereState) (c : ℚ) :
    (stepMinX st c).minZ = st.minZ := by
  unfold stepMinX
  split <;> rfl

theorem stepMaxY_maxX (st : BSphereState) (c : ℚ) :
    (stepMaxY st c).maxX = st.maxX := by
  unfold stepMaxY
  split <;> rfl

theorem stepMaxY_maxY (st : BSphereState) (c : ℚ) :
    (stepMaxY st c).maxY = max st.maxY c := by
  unfold stepMaxY
  split <;> rename_i h <;> symm
  · exact max_eq_right (le_of_lt h)
  · exact max_eq_left (not_lt.mp h)

theorem stepMaxY_maxZ (st : BSphereState) (c : ℚ) :
    (stepMaxY st c).maxZ = st.maxZ := by
  unfold stepMaxY
  split <;> rfl

theorem stepMaxY_minX (st : BSphereState) (c : ℚ) :
    (stepMaxY st c).minX = st.minX := by
  unfold stepMaxY
  split <;> rfl

theorem stepMaxY_minY (st : BSphereState) (c : ℚ) :
    (stepMaxY st c).minY = st.minY := by
  unfold stepMaxY
  split <;> rfl

theorem stepMaxY_minZ (st : BSphereState) (c : ℚ) :
    (stepMaxY st c).minZ = st.minZ := by
  unfold stepMaxY
  split <;> rfl

theorem stepMinY_maxX (st : BSphereState) (c : ℚ) :
    (stepMinY st c).maxX = st.maxX := by
  unfold stepMinY
  split <;> rfl

theorem stepMinY_maxY (st : BSphereState) (c : ℚ) :
    (stepMinY st c).maxY = st.maxY := by
  unfold stepMinY
  split <;> rfl

theorem stepMinY_maxZ (st : BSphereState) (c : ℚ) :
    (stepMinY st c).maxZ = st.maxZ := by
  unfold stepMinY
  split <;> rfl

theorem stepMinY_minX (st : BSphereState) (c : ℚ) :
    (stepMinY st c).minX = st.minX := by
  unfold stepMinY
  split <;> rfl

theorem stepMinY_minY (st : BSphereState) (c : ℚ) :
    (stepMinY st c).minY = min st.minY c := by
  unfold stepMinY
  split <;> rename_i h <;> symm
  · exact min_eq_right (le_of_lt h)
  · exact min_eq_left (not_lt.mp h)

theorem stepMinY_minZ (st : BSphereState) (c : ℚ) :
    (stepMinY st c).minZ = st.minZ := by
  unfold stepMinY
  split <;> rfl

theorem stepMaxZ_maxX (st : BSphereState) (c : ℚ) :
    (stepMaxZ st c).maxX = st.maxX := by
  unfold stepMaxZ
  split <;> rfl

theorem stepMaxZ_maxY (st : BSphereState) (c : ℚ) :
    (stepMaxZ st c).maxY = st.maxY := by
  unfold stepMaxZ
  split <;> rfl

theorem stepMaxZ_maxZ (st : BSphereState) (c : ℚ) :
    (stepMaxZ st c).maxZ = max st.maxZ c := by
  unfold stepMaxZ
  split <;> rename_i h <;> symm
  · exact max_eq_right (le_of_lt h)
  · exact max_eq_left (not_lt.mp h)

theorem stepMaxZ_minX (st : BSphereState) (c : ℚ) :
    (stepMaxZ st c).minX = st.minX := by
  unfold stepMaxZ
  split <;> rfl

theorem stepMaxZ_minY (st : BSphereState) (c : ℚ) :
    (stepMaxZ st c).minY = st.minY := by
  unfold stepMaxZ
  split <;> rfl

theorem stepMaxZ_minZ (st : BSphereState) (c : ℚ) :
    (stepMaxZ st c).minZ = st.minZ := by
  unfold stepMaxZ
  split <;> rfl

theorem stepMinZ_maxX (st : BSphereState) (c : ℚ) :
    (stepMinZ st c).maxX = st.maxX := by
  unfold stepMinZ
  split <;> rfl

theorem stepMinZ_maxY (st : BSphereState) (c : ℚ) :
    (stepMinZ st c).maxY = st.maxY := by
  unfold stepMinZ
  split <;> rfl

theorem stepMinZ_maxZ (st : BSphereState) (c : ℚ) :
    (stepMinZ st c).maxZ = st.maxZ := by
  unfold stepMinZ
  split <;> rfl

theorem stepMinZ_minX (st : BSphereState) (c : ℚ) :
    (stepMinZ st c).minX = st.minX := by
  unfold stepMinZ
  split <;> rfl

theorem stepMinZ_minY (st : BSphereState) (c : ℚ) :
    (stepMinZ st c).minY = st.minY := by
  unfold stepMinZ
  split <;> rfl

theorem stepMinZ_minZ (st : BSphereState) (c : ℚ) :
    (stepMinZ st c).minZ = min st.minZ c := by
  unfold stepMinZ
  split <;> rename_i h <;> symm
  · exact min_eq_right (le_of_lt h)
  · exact min_eq_left (not_lt.mp h)

theorem bsphereStep_maxX (st : BSphereState) (v : UvVertex) :
    (bsphereStep st v).maxX = max st.maxX v.co.1 := by
  unfold bsphereStep
  rw [stepMinZ_maxX, stepMaxZ_maxX, stepMinY_maxX, stepMaxY_maxX, stepMinX_maxX, stepMaxX_maxX]

theorem bsphereStep_maxY (st : BSphereState) (v : UvVertex) :
    (bsphereStep st v).maxY = max st.maxY v.co.2.1 := by
  unfold bsphereStep
  rw [stepMinZ_maxY, stepMaxZ_maxY, stepMinY_maxY, stepMaxY_maxY, stepMinX_maxY, stepMaxX_maxY]

theorem bsphereStep_maxZ (st : BSphereState) (v : UvVertex) :
    (bsphereStep st v).maxZ = max st.maxZ v.co.2.2 := by
  unfold bsphereStep
  rw [stepMinZ_maxZ, stepMaxZ_maxZ, stepMinY_maxZ, stepMaxY_maxZ, stepMinX_maxZ, stepMaxX_maxZ]

theorem bsphereStep_minX (st : BSphereState) (v : UvVertex) :
    (bsphereStep st v).minX = min st.minX v.co.1 := by
  unfold bsphereStep
  rw [stepMinZ_minX, stepMaxZ_minX, stepMinY_minX, stepMaxY_minX, stepMinX_minX, stepMaxX_minX]

theorem bsphereStep_minY (st : BSphereState) (v : UvVertex) :
    (bsphereStep st v).minY = min st.minY v.co.2.1 := by
  unfold bsphereStep
  rw [stepMinZ_minY, stepMaxZ_minY, stepMinY_minY, stepMaxY_minY, stepMinX_minY, stepMaxX_minY]

theorem bsphereStep_minZ (st : BSphereState) (v : UvVertex) :
    (bsphereStep st v).minZ = min st.minZ v.co.2.2 := by
  unfold bsphereStep
  rw [stepMinZ_minZ, stepMaxZ_minZ, stepMinY_minZ, stepMaxY_minZ, stepMinX_minZ, stepMaxX_minZ]

theorem bsphere_foldl_maxX : ∀ (vs : List UvVertex) (st : BSphereState),
    (vs.foldl bsphereStep st).maxX =
      vs.foldl (fun acc u => max acc u.co.1) st.maxX := by
  intro vs
  induction vs with
  | nil => intro st; rfl
  | cons v vs ih =>
    intro st
    rw [List.foldl_cons, List.foldl_cons, ih, bsphereStep_maxX]

theorem bsphere_foldl_maxY : ∀ (vs : List UvVertex) (st : BSphereState),
    (vs.foldl bsphereStep st).maxY =
      vs.foldl (fun acc u => max acc u.co.2.1) st.maxY := by
  intro vs
  induction vs with
  | nil => intro st; rfl
  | cons v vs ih =>
    intro st
    rw [List.foldl_cons, List.foldl_cons, ih, bsphereStep_maxY]

theorem bsphere_foldl_maxZ : ∀ (vs : List UvVertex) (st : BSphereState),
    (vs.foldl bsphereStep st).maxZ =
      vs.foldl (fun acc u => max acc u.co.2.2) st.maxZ := by
  intro vs
  induction vs with
  | nil => intro st; rfl
  | cons v vs ih =>
    intro st
    rw [List.foldl_cons, List.foldl_cons, ih, bsphereStep_maxZ]

theorem bsphere_foldl_minX : ∀ (vs : List UvVertex) (st : BSphereState),
    (vs.foldl bsphereStep st).minX =
      vs.foldl (fun acc u => min acc u.co.1) st.minX := by
  intro vs
  induction vs with
  | nil => intro st; rfl
  | cons v vs ih =>
    intro st
    rw [List.foldl_cons, List.foldl_cons, ih, bsphereStep_minX]

theorem bsphere_foldl_minY : ∀ (vs : List UvVertex) (st : BSphereState),
    (vs.foldl bsphereStep st).minY =
      vs.foldl (fun acc u => min acc u.co.2.1) st.minY := by
  intro vs
  induction vs with
  | nil => intro st; rfl
  | cons v vs ih =>
    intro st
    rw [List.foldl_cons, List.foldl_cons, ih, bsphereStep_minY]

theorem bsphere_foldl_minZ : ∀ (vs : List UvVertex) (st : BSphereState),
    (vs.foldl bsphereStep st).minZ =
      vs.foldl (fun acc u => min acc u.co.2.2) st.minZ := by
  intro vs
  induction vs with
  | nil => intro st; rfl
  | cons v vs ih =>
    intro st
    rw [List.foldl_cons, List.foldl_cons, ih, bsphereStep_minZ]

/-- The general content of writeBoundingSphere under the sentinel bounds:
center is the per-axis midpoint of the axis extrema and radius twice the
largest half-extent. -/
theorem writeBoundingSphere_spec (v : UvVertex) (rest : List UvVertex)
    (hb : ∀ u ∈ v :: rest,
      -999999999 ≤ u.co.1 ∧ u.co.1 ≤ 999999999 ∧
      -999999999 ≤ u.co.2.1 ∧ u.co.2.1 ≤ 999999999 ∧
      -999999999 ≤ u.co.2.2 ∧ u.co.2.2 ≤ 999999999) :
    writeBoundingSphere (v :: rest) =
      [Token.vec3
        ((rest.foldl (fun acc u => min acc u.co.1) v.co.1 +
          rest.foldl (fun acc u => max acc u.co.1) v.co.1) / 2,
         (rest.foldl (fun acc u => min acc u.co.2.1) v.co.2.1 +
          rest.foldl (fun acc u => max acc u.co.2.1) v.co.2.1) / 2,
         (rest.foldl (fun acc u => min acc u.co.2.2) v.co.2.2 +
          rest.foldl (fun acc u => max acc u.co.2.2) v.co.2.2) / 2),
       Token.flt (2 * max
         ((rest.foldl (fun acc u => max acc u.co.1) v.co.1 -
           rest.foldl (fun acc u => min acc u.co.1) v.co.1) / 2)
         (max
          ((rest.foldl (fun acc u => max acc u.co.2.1) v.co.2.1 -
            rest.foldl (fun acc u => min acc u.co.2.1) v.co.2.1) / 2)
          ((rest.foldl (fun acc u => max acc u.co.2.2) v.co.2.2 -
            rest.foldl (fun acc u => min acc u.co.2.2) v.co.2.2) / 2)))] := by
  obtain ⟨hvx1, hvx2, hvy1, hvy2, hvz1, hvz2⟩ := hb v (List.mem_cons_self v rest)
  unfold writeBoundingSphere
  dsimp only
  rw [bsphere_foldl_maxX, bsphere_foldl_maxY, bsphere_foldl_maxZ,
    bsphere_foldl_minX, bsphere_foldl_minY, bsphere_foldl_minZ]
  dsimp only
  rw [List.foldl_cons, List.foldl_cons, List.foldl_cons, List.foldl_cons,
    List.foldl_cons, List.foldl_cons]
  rw [max_eq_right hvx1, max_eq_right hvy1, max_eq_right hvz1,
    min_eq_right hvx2, min_eq_right hvy2, min_eq_right hvz2]
  have e1 : ∀ mn mx : ℚ, mn + (mx - mn) / 2 = (mn + mx) / 2 := by
    intro mn mx; ring
  have e2 : ∀ a b c : ℚ, max a (max b c) * 2 = 2 * max a (max b c) := by
    intro a b c; ring
  rw [e1, e1, e1, e2]

/-- C8 (amended): for every non-empty vertex set all of whose coordinates
lie within the `999999999` sentinels of the source, the emitted center is
the per-axis midpoint of the axis-aligned minimum and maximum and the
emitted radius is twice the largest half-extent; in particular the unit
cube centered at the origin yields center `(0, 0, 0)` and radius `1`.
Outside the sentinel range the sentinel wins the comparison and the claim
fails, see the counterexample. -/
theorem C8_bounding_sphere (v : UvVertex) (rest : List UvVertex)
    (hb : ∀ u ∈ v :: rest,
      -999999999 ≤ u.co.1 ∧ u.co.1 ≤ 999999999 ∧
      -999999999 ≤ u.co.2.1 ∧ u.co.2.1 ≤ 999999999 ∧
      -999999999 ≤ u.co.2.2 ∧ u.co.2.2 ≤ 999999999) :
    (writeBoundingSphere (v :: rest) =
      [Token.vec3
        ((rest.foldl (fun acc u => min acc u.co.1) v.co.1 +
          rest.foldl (fun acc u => max acc u.co.1) v.co.1) / 2,
         (rest.foldl (fun acc u => min acc u.co.2.1) v.co.2.1 +
          rest.foldl (fun acc u => max acc u.co.2.1) v.co.2.1) / 2,
         (rest.foldl (fun acc u => min acc u.co.2.2) v.co.2.2 +
          rest.foldl (fun acc u => max acc u.co.2.2) v.co.2.2) / 2),
       Token.flt (2 * max
         ((rest.foldl (fun acc u => max acc u.co.1) v.co.1 -
           rest.foldl (fun acc u => min acc u.co.1) v.co.1) / 2)
         (max
          ((rest.foldl (fun acc u => max acc u.co.2.1) v.co.2.1 -
            rest.foldl (fun acc u => min acc u.co.2.1) v.co.2.1) / 2)
          ((rest.foldl (fun acc u => max acc u.co.2.2) v.co.2.2 -
            rest.foldl (fun acc u => min acc u.co.2.2) v.co.2.2) / 2)))]) ∧
    writeBoundingSphere c8Cube = [Token.vec3 (0, 0, 0), Token.flt 1] := by
  refine ⟨writeBoundingSphere_spec v rest hb, ?_⟩
  have h := writeBoundingSphere_spec
    ⟨(1/2, 1/2, 1/2), (0, 0, 0), (0, 0), (1, 0, 0)⟩
    [⟨(1/2, 1/2, -(1/2)), (0, 0, 0), (0, 0), (1, 0, 0)⟩,
     ⟨(1/2, -(1/2), 1/2), (0, 0, 0), (0, 0), (1, 0, 0)⟩,
     ⟨(1/2, -(1/2), -(1/2)), (0, 0, 0), (0, 0), (1, 0, 0)⟩,
     ⟨(-(1/2), 1/2, 1/2), (0, 0, 0), (0, 0), (1, 0, 0)⟩,
     ⟨(-(1/2), 1/2, -(1/2)), (0, 0, 0), (0, 0), (1, 0, 0)⟩,
     ⟨(-(1/2), -(1/2), 1/2), (0, 0, 0), (0, 0), (1, 0, 0)⟩,
     ⟨(-(1/2), -(1/2), -(1/2)), (0, 0, 0), (0, 0), (1, 0, 0)⟩]
    (by intro u hu; simp at hu; rcases hu with h | h | h | h | h | h | h | h <;>
      subst h <;> norm_num)
  unfold c8Cube
  rw [h]
  norm_num [List.foldl, min_def, max_def]

/-- C8 counterexample: a single vertex at `x = 1000000000` lies beyond the
`999999999` sentinel, so the computed minimum stays at the sentinel: the
emitted center is `(1999999999/2, 0, 0)` with radius `1`, not the claimed
per-axis midpoint `(1000000000, 0, 0)` with radius `0`. -/
theorem C8_counterexample :
    writeBoundingSphere
      [⟨(1000000000, 0, 0), (0, 0, 0), (0, 0), (1, 0, 0)⟩] =
      [Token.vec3 (1999999999 / 2, 0, 0), Token.flt 1] ∧
    ¬ (writeBoundingSphere
      [⟨(1000000000, 0, 0), (0, 0, 0), (0, 0), (1, 0, 0)⟩] =
      [Token.vec3 ((1000000000 + 1000000000) / 2, (0 + 0) / 2, (0 + 0) / 2),
       Token.flt (2 * max ((1000000000 - 1000000000) / 2)
         (max ((0 - 0) / 2) ((0 - 0) / 2)))]) := by
  constructor <;>
    norm_num [writeBoundingSphere, bsphereStep, stepMaxX, stepMinX,
      stepMaxY, stepMinY, stepMaxZ, stepMinZ, min_def, max_def]

/-- C8 witness: the hypothesis of `C8_bounding_sphere` holds at the unit
cube and the theorem then computes its bounding sphere. -/
theorem C8_witness :
    writeBoundingSphere c8Cube = [Token.vec3 (0, 0, 0), Token.flt 1] :=
  (C8_bounding_sphere
    ⟨(1/2, 1/2, 1/2), (0, 0, 0), (0, 0), (1, 0, 0)⟩
    [⟨(1/2, 1/2, -(1/2)), (0, 0, 0), (0, 0), (1, 0, 0)⟩,
     ⟨(1/2, -(1/2), 1/2), (0, 0, 0), (0, 0), (1, 0, 0)⟩,
     ⟨(1/2, -(1/2), -(1/2)), (0, 0, 0), (0, 0), (1, 0, 0)⟩,
     ⟨(-(1/2), 1/2, 1/2), (0, 0, 0), (0, 0), (1, 0, 0)⟩,
     ⟨(-(1/2), 1/2, -(1/2)), (0, 0, 0), (0, 0), (1, 0, 0)⟩,
     ⟨(-(1/2), -(1/2), 1/2), (0, 0, 0), (0, 0), (1, 0, 0)⟩,
     ⟨(-(1/2), -(1/2), -(1/2)), (0, 0, 0), (0, 0), (1, 0, 0)⟩]
    (by intro u hu; simp at hu;
        rcases hu with h | h | h | h | h | h | h | h <;> subst h <;>
          norm_num)).2

/-! ## Skip test order in writeObject (C10) and the vertex limit (C1) -/

/-- C10: in `writeObject` the reserved-prefix test precedes the
mesh-children check: a double-underscore-prefixed object is skipped with
its whole subtree, emitting no tokens, no warnings and no error even when
it is a mesh with children; a non-skipped mesh-typed object with children
raises the children error instead. -/
theorem C10_reserved_skip_precedes_children_check (ctx : WCtx) (o : BObject) :
    (o.name.startsWith "__" = true → writeObject ctx o = Except.ok ([], [])) ∧
    (o.name.startsWith "__" = false → o.otype = "MESH" → o.children ≠ [] →
      writeObject ctx o = Except.error
        ("A mesh cannot contain children ('" ++ o.name ++ "')")) := by
  obtain ⟨n, t, hp, mw, dims, clm, cpw, md, ac, children⟩ := o
  constructor
  · intro hs
    rw [writeObject]
    simp only [BObject.name] at hs
    rw [if_neg (by simp [hs])]
    rfl
  · intro hs ht hc
    simp only [BObject.name] at hs
    simp only [BObject.otype] at ht
    simp only [BObject.children] at hc
    rw [writeObject]
    rw [if_pos (by simp [hs])]
    subst ht
    rw [if_pos rfl]
    rw [if_pos (fun h => hc (List.length_eq_zero.mp h))]
    rfl

/-- C10 witness: a reserved-prefix mesh with a child is skipped entirely,
while the same mesh without the prefix raises the children error. -/
theorem C10_witness :
    writeObject ⟨fun _ => none, fun _ => false, []⟩
      (.mk "__hidden" "MESH" false id (1, 1, 1) .identity .identity
        default default
        [.mk "child" "Node" true id (1, 1, 1) .identity .identity
          default default []]) = Except.ok ([], []) ∧
    writeObject ⟨fun _ => none, fun _ => false, []⟩
      (.mk "Cube" "MESH" false id (1, 1, 1) .identity .identity
        default default
        [.mk "child" "Node" true id (1, 1, 1) .identity .identity
          default default []]) =
      Except.error "A mesh cannot contain children ('Cube')" :=
  ⟨(C10_reserved_skip_precedes_children_check _ _).1 (by with_unfolding_all rfl),
   (C10_reserved_skip_precedes_children_check _ _).2 (by with_unfolding_all rfl)
     rfl (by simp [BObject.children])⟩

/-- C1: every partition returned by `splitMeshesForVertexLimit` has at
most `2 ^ 16` vertices, so the fatal vertex-count branch of `writeMesh`
cannot fire on it: `writeMesh` succeeds on every such partition. -/
theorem C1_vertex_limit_invariant (meshes : List Mesh) (m' : Mesh)
    (hm : m' ∈ splitMeshesForVertexLimit meshes) (name : String)
    (props : NodeProperties) :
    m'.vertices.length ≤ 2 ^ 16 ∧
    ∃ out, writeMesh name m' props = Except.ok out := by
  have hlen := splitMeshes_len_le hm
  refine ⟨hlen, ?_⟩
  unfold writeMesh
  rw [if_neg (by omega)]
  exact ⟨_, rfl⟩

/-- C1 witness at a concrete one-partition input. -/
theorem C1_witness :
    (⟨none, [], []⟩ : Mesh) ∈ splitMeshesForVertexLimit [⟨none, [], []⟩] ∧
    ((⟨none, [], []⟩ : Mesh).vertices.length ≤ 2 ^ 16 ∧
      ∃ out, writeMesh "o" ⟨none, [], []⟩ default = Except.ok out) := by
  have hmem : (⟨none, [], []⟩ : Mesh) ∈ splitMeshesForVertexLimit
      [⟨none, [], []⟩] := by
    with_unfolding_all decide
  exact ⟨hmem, C1_vertex_limit_invariant _ _ hmem "o" default⟩

/-- C4: a partition with at most `2 ^ 16` vertices passes through
`splitMeshesForVertexLimit` unchanged; a partition above that limit is
re-chunked so that every chunk keeps the materialId, holds at most
`2 ^ 16` vertices, consists of whole triangles whose indices are local to
the chunk, every chunk but the last is closed at the `2 ^ 16 - 3`
headroom threshold, and the concatenation of the chunks' triangle
streams (by vertex value) reconstructs the original triangle stream
exactly. -/
theorem C4_index_limit_splitting (mesh : Mesh) :
    (mesh.vertices.length ≤ 2 ^ 16 →
      splitMeshesForVertexLimit [mesh] = [mesh]) ∧
    (2 ^ 16 < mesh.vertices.length →
      ∀ c ∈ splitMeshesForVertexLimit [mesh],
        c.materialId = mesh.materialId ∧
        c.vertices.length ≤ 2 ^ 16 ∧
        (3 ∣ mesh.indices.length → 3 ∣ c.indices.length) ∧
        (∀ j ∈ c.indices, j < c.vertices.length)) ∧
    (∀ c ∈ (splitMeshesForVertexLimit [mesh]).dropLast,
      2 ^ 16 - 3 ≤ c.vertices.length) ∧
    (splitMeshesForVertexLimit [mesh]).flatMap decodeMesh = decodeMesh mesh := by
  refine ⟨?_, ?_, ?_, ?_⟩
  · intro hsmall
    exact splitMeshes_id_of_small (by intro m hm; rw [List.mem_singleton.mp hm]; exact hsmall)
  · intro hbig c hc
    rw [splitMeshes_big_eq mesh hbig] at hc
    obtain ⟨c0, hc0, hcm⟩ := List.mem_map.mp hc
    obtain ⟨hprops, _, _⟩ := buildChunks_spec (2 ^ 16) (by norm_num) mesh.indices
    obtain ⟨hwf, hlen, hb, hdvd⟩ := hprops c0 hc0
    subst hcm
    refine ⟨rfl, ?_, ?_, ?_⟩
    · rw [chunkToMesh_len]
      omega
    · intro h
      exact hdvd h
    · intro j hj
      rw [chunkToMesh_len]
      exact hb j hj
  · intro c hc
    by_cases hbig : 2 ^ 16 < mesh.vertices.length
    · rw [splitMeshes_big_eq mesh hbig] at hc
      rw [← List.map_dropLast] at hc
      obtain ⟨c0, hc0, hcm⟩ := List.mem_map.mp hc
      obtain ⟨_, _, hlast⟩ := buildChunks_spec (2 ^ 16) (by norm_num) mesh.indices
      subst hcm
      rw [chunkToMesh_len]
      exact hlast c0 hc0
    · rw [splitMeshes_id_of_small
        (by intro m hm; rw [List.mem_singleton.mp hm]; omega)] at hc
      simp at hc
  · by_cases hbig : 2 ^ 16 < mesh.vertices.length
    · exact splitMeshes_reconstruct mesh hbig
    · rw [splitMeshes_id_of_small
        (by intro m hm; rw [List.mem_singleton.mp hm]; omega)]
      simp

/-- C4 witness at concrete inputs: a small partition passes through
unchanged, and a partition claimed oversized with an empty index list
satisfies the chunk conditions vacuously with an exact (empty)
reconstruction. -/
theorem C4_witness :
    ((⟨some 7, [default, default], []⟩ : Mesh).vertices.length ≤ 2 ^ 16 ∧
      splitMeshesForVertexLimit [⟨some 7, [default, default], []⟩] =
        [⟨some 7, [default, default], []⟩]) ∧
    (2 ^ 16 < (Mesh.mk (some 7) (List.replicate 65537 default) []).vertices.length ∧
      ∀ c ∈ splitMeshesForVertexLimit
          [Mesh.mk (some 7) (List.replicate 65537 default) []],
        c.materialId = (Mesh.mk (some 7) (List.replicate 65537 default) []).materialId ∧
        c.vertices.length ≤ 2 ^ 16 ∧
        (3 ∣ (Mesh.mk (some 7) (List.replicate 65537 default) []).indices.length →
          3 ∣ c.indices.length) ∧
        (∀ j ∈ c.indices, j < c.vertices.length)) := by
  constructor
  · have h := (C4_index_limit_splitting ⟨some 7, [default, default], []⟩).1
    exact ⟨by norm_num, h (by norm_num)⟩
  · have hbig : 2 ^ 16 <
        (Mesh.mk (some 7) (List.replicate 65537 default) []).vertices.length := by
      show 2 ^ 16 < (List.replicate 65537 (default : UvVertex)).length
      rw [List.length_replicate]
      norm_num
    exact ⟨hbig, (C4_index_limit_splitting _).2.1 hbig⟩

/-! ## Per-material partitioning: dedup, winding, uv (C5, C6, C3, C7) -/
theorem windingIndices_decode {m : List (UvVertex × Nat)} {fi : List Nat}
    {fv : List UvVertex}
    (hlen : fi.length = fv.length)
    (hmap : fi.map (fun j => keyAt m j) = fv)
    (hb : ∀ j ∈ fi, j < m.length)
    (hfv : fv.length = 3 ∨ fv.length = 4) :
    ((windingIndices fi).map fun j => keyAt m j) = windingValues fv ∧
    (∀ j ∈ windingIndices fi, j < m.length) := by
  rcases hfv with h3 | h4
  · obtain ⟨A, B, C, rfl⟩ := List.length_eq_three.mp h3
    obtain ⟨a, b, c, rfl⟩ := List.length_eq_three.mp (hlen.trans h3)
    simp only [List.map_cons, List.map_nil, List.cons.injEq, and_true] at hmap
    obtain ⟨ha, hb2, hc⟩ := hmap
    constructor
    · unfold windingIndices windingValues
      simp [ha, hb2, hc]
    · intro j hj
      have hin : j ∈ [a, b, c] := by
        unfold windingIndices at hj
        simp at hj ⊢
        tauto
      exact hb _ hin
  · obtain ⟨A, t, rfl⟩ : ∃ A t, fv = A :: t := by
      cases fv with
      | nil => simp at h4
      | cons A t => exact ⟨A, t, rfl⟩
    have ht : t.length = 3 := by simpa using h4
    obtain ⟨B, C, D, rfl⟩ := List.length_eq_three.mp ht
    have hfi4 : fi.length = 4 := by simpa using hlen
    obtain ⟨a, s, rfl⟩ : ∃ a s, fi = a :: s := by
      cases fi with
      | nil => simp at hfi4
      | cons a s => exact ⟨a, s, rfl⟩
    have hs : s.length = 3 := by simpa using hfi4
    obtain ⟨b, c, d, rfl⟩ := List.length_eq_three.mp hs
    simp only [List.map_cons, List.map_nil, List.cons.injEq, and_true] at hmap
    obtain ⟨ha, hb2, hc, hd⟩ := hmap
    constructor
    · unfold windingIndices windingValues
      simp [ha, hb2, hc, hd]
    · intro j hj
      have hin : j ∈ [a, b, c, d] := by
        unfold windingIndices at hj
        simp at hj ⊢
        tauto
      exact hb _ hin

theorem faceVertexValues_length (object : BObject) (meshCopy : BMeshData)
    (materialIndex : Nat) (face : BFace) :
    (faceVertexValues object meshCopy materialIndex face).length =
      face.vertices.length := by
  unfold faceVertexValues
  simp

theorem processFaces_spec (object : BObject) (meshCopy : BMeshData)
    (materialIndex : Nat) :
    ∀ (faces : List BFace) (m : List (UvVertex × Nat)) (indices : List Nat),
    dictWF m →
    (∀ face ∈ faces, face.vertices.length = 3 ∨ face.vertices.length = 4) →
    dictWF (processFaces object meshCopy materialIndex faces m indices).1 ∧
    (∃ t, (processFaces object meshCopy materialIndex faces m indices).1 =
      m ++ t) ∧
    m.length ≤ (processFaces object meshCopy materialIndex faces m indices).1.length ∧
    ((processFaces object meshCopy materialIndex faces m indices).1.map
        Prod.fst =
      ((faces.filter fun face =>
        materialIndex = face.material_index).flatMap fun face =>
          faceVertexValues object meshCopy materialIndex face).foldl
        pyKeysInsert (m.map Prod.fst)) ∧
    (∃ extra,
      (processFaces object meshCopy materialIndex faces m indices).2 =
        indices ++ extra ∧
      (∀ j ∈ extra, j <
        (processFaces object meshCopy materialIndex faces m indices).1.length) ∧
      extra.map (fun j =>
        keyAt (processFaces object meshCopy materialIndex faces m indices).1 j) =
        (faces.filter fun face =>
          materialIndex = face.material_index).flatMap fun face =>
            windingValues (faceVertexValues object meshCopy materialIndex face)) := by
  intro faces
  induction faces with
  | nil =>
    intro m indices hwf _
    exact ⟨hwf, ⟨[], by simp [processFaces]⟩, by simp [processFaces],
      by simp [processFaces], ⟨[], by simp [processFaces]⟩⟩
  | cons face rest ih =>
    intro m indices hwf hshape
    by_cases hmat : materialIndex = face.material_index
    · have hstep : processFaces object meshCopy materialIndex
          (face :: rest) m indices =
        processFaces object meshCopy materialIndex rest
          (dictInsertMany m []
            (faceVertexValues object meshCopy materialIndex face)).1
          (indices ++ windingIndices (dictInsertMany m []
            (faceVertexValues object meshCopy materialIndex face)).2) := by
        rw [processFaces, if_pos hmat]
      obtain ⟨hwf1, ⟨t1, ht1⟩, hlow1, hub1, ⟨js, hjs, hjslen, hjsb, hjsmap⟩⟩ :=
        dictInsertMany_spec (faceVertexValues object meshCopy materialIndex face)
          m [] hwf
      have hfi : (dictInsertMany m []
          (faceVertexValues object meshCopy materialIndex face)).2 = js := by
        simpa using hjs
      obtain ⟨hwfR, ⟨t2, ht2⟩, hlowR, hkeysR, ⟨extra, hextra, hextraB, hextraMap⟩⟩ :=
        ih (dictInsertMany m []
            (faceVertexValues object meshCopy materialIndex face)).1
          (indices ++ windingIndices (dictInsertMany m []
            (faceVertexValues object meshCopy materialIndex face)).2)
          hwf1 (fun f hf => hshape f (List.mem_cons_of_mem _ hf))
      rw [hstep]
      have hwind := windingIndices_decode hjslen hjsmap hjsb
        (by rw [faceVertexValues_length]; exact hshape face (List.mem_cons_self _ _))
      refine ⟨hwfR, ⟨t1 ++ t2, by rw [ht2, ht1, List.append_assoc]⟩,
        le_trans hlow1 hlowR, ?_, ?_⟩
      · rw [hkeysR]
        rw [List.filter_cons_of_pos (by simpa using hmat), List.flatMap_cons]
        rw [List.foldl_append]
        congr 1
        exact dictInsertMany_keys
          (faceVertexValues object meshCopy materialIndex face) m []
      · refine ⟨windingIndices js ++ extra, ?_, ?_, ?_⟩
        · rw [hextra, hfi, List.append_assoc]
        · intro j hj
          rcases List.mem_append.mp hj with h | h
          · have hb := (hwind.2 j h)
            calc j < (dictInsertMany m []
                (faceVertexValues object meshCopy materialIndex face)).1.length := hb
              _ ≤ _ := hlowR
          · exact hextraB j h
        · rw [List.map_append, hextraMap]
          rw [List.filter_cons_of_pos (by simpa using hmat), List.flatMap_cons]
          congr 1
          rw [← hwind.1]
          apply List.map_congr_left
          intro j hj
          rw [ht2, keyAt_append (hwind.2 j hj)]
    · have hstep : processFaces object meshCopy materialIndex
          (face :: rest) m indices =
        processFaces object meshCopy materialIndex rest m indices := by
        rw [processFaces, if_neg hmat]
      rw [hstep]
      obtain ⟨hwfR, hext, hlow, hkeys, hex⟩ :=
        ih m indices hwf (fun f hf => hshape f (List.mem_cons_of_mem _ hf))
      rw [List.filter_cons_of_neg (by simpa using hmat)]
      exact ⟨hwfR, hext, hlow, hkeys, hex⟩

theorem meshForMaterial_spec (object : BObject) (meshCopy : BMeshData)
    (materialsWriter : String → Option Nat) (materialIndex : Nat)
    (hshape : ∀ face ∈ meshCopy.tessfaces,
      face.vertices.length = 3 ∨ face.vertices.length = 4)
    {p : Mesh}
    (hok : meshForMaterial object meshCopy materialsWriter materialIndex =
      Except.ok p) :
    (∃ mat, meshCopy.materials.getD materialIndex none = some mat ∧
      mat.name.startsWith "__" = false ∧
      p.materialId = materialsWriter mat.name) ∧
    p.vertices = dedupFirst ((meshCopy.tessfaces.filter fun face =>
      materialIndex = face.material_index).flatMap fun face =>
        faceVertexValues object meshCopy materialIndex face) ∧
    p.vertices.Nodup ∧
    (∀ j ∈ p.indices, j < p.vertices.length) ∧
    p.indices.map (fun j => p.vertices.getD j default) =
      claimedFaceStream object meshCopy materialIndex := by
  unfold meshForMaterial at hok
  cases hmat : meshCopy.materials.getD materialIndex none with
  | none => rw [hmat] at hok; exact absurd hok (by simp)
  | some mat =>
    rw [hmat] at hok
    dsimp only at hok
    by_cases hres : mat.name.startsWith "__"
    · rw [if_pos hres] at hok
      exact absurd hok (by simp)
    · rw [if_neg hres] at hok
      obtain ⟨hwfR, _, _, hkeys, ⟨extra, hextra, hextraB, hextraMap⟩⟩ :=
        processFaces_spec object meshCopy materialIndex meshCopy.tessfaces
          [] [] dictWF_nil hshape
      have hp := Except.ok.inj hok
      have hverts : p.vertices =
          (processFaces object meshCopy materialIndex
            meshCopy.tessfaces [] []).1.map Prod.fst := by
        rw [← hp]
        rw [dictWF_mergeSort_eq hwfR]
      have hinds : p.indices = extra := by
        rw [← hp]
        simpa using hextra
      have hlen : p.vertices.length =
          (processFaces object meshCopy materialIndex
            meshCopy.tessfaces [] []).1.length := by
        rw [hverts, List.length_map]
      refine ⟨⟨mat, rfl, by simpa using hres, by rw [← hp]⟩, ?_, ?_, ?_, ?_⟩
      · rw [hverts, hkeys]
        rfl
      · rw [hverts]
        exact hwfR.2
      · intro j hj
        rw [hinds] at hj
        rw [hlen]
        exact hextraB j hj
      · rw [hinds, hverts]
        unfold claimedFaceStream
        rw [← hextraMap]
        rfl

theorem meshesForMaterials_mem (object : BObject) (meshCopy : BMeshData)
    (materialsWriter : String → Option Nat) :
    ∀ (mis : List Nat) (ms : List Mesh),
    meshesForMaterials object meshCopy materialsWriter mis = Except.ok ms →
    ∀ p ∈ ms, ∃ mi ∈ mis,
      meshForMaterial object meshCopy materialsWriter mi = Except.ok p := by
  intro mis
  induction mis with
  | nil =>
    intro ms hok p hp
    rw [meshesForMaterials] at hok
    obtain rfl := Except.ok.inj hok
    simp at hp
  | cons mi rest ih =>
    intro ms hok p hp
    rw [meshesForMaterials] at hok
    cases h1 : meshForMaterial object meshCopy materialsWriter mi with
    | error e => rw [h1] at hok; exact Except.noConfusion hok
    | ok m =>
      rw [h1] at hok
      cases h2 : meshesForMaterials object meshCopy materialsWriter rest with
      | error e => rw [h2] at hok; exact Except.noConfusion hok
      | ok ms' =>
        rw [h2] at hok
        have : m :: ms' = ms := Except.ok.inj hok
        subst this
        rcases List.mem_cons.mp hp with h | h
        · exact ⟨mi, by simp, h ▸ h1⟩
        · obtain ⟨mi', hmi', hok'⟩ := ih ms' h2 p h
          exact ⟨mi', List.mem_cons_of_mem _ hmi', hok'⟩

theorem splitObjectByMaterials_mem {object : BObject}
    {materialsWriter : String → Option Nat} {ms : List Mesh}
    (hok : splitObjectByMaterials object materialsWriter = Except.ok ms) :
    ∀ p ∈ ms, ∃ mi ∈ usedMaterialIndices object.meshData,
      meshForMaterial object object.meshData materialsWriter mi =
        Except.ok p := by
  unfold splitObjectByMaterials at hok
  by_cases hz : object.meshData.materials.length = 0
  · rw [if_pos hz] at hok
    exact absurd hok (by simp)
  · rw [if_neg hz] at hok
    exact meshesForMaterials_mem object object.meshData materialsWriter _ ms hok

theorem nodup_getD_inj {α : Type} [Inhabited α] {l : List α} (hnd : l.Nodup)
    {j1 j2 : Nat} (h1 : j1 < l.length) (h2 : j2 < l.length)
    (heq : l.getD j1 default = l.getD j2 default) : j1 = j2 := by
  have hinj := List.nodup_iff_injective_get.mp hnd
  have e1 : l.getD j1 default = l.get ⟨j1, h1⟩ := by
    rw [List.getD_eq_getElem?_getD, List.getElem?_eq_getElem h1]
    rfl
  have e2 : l.getD j2 default = l.get ⟨j2, h2⟩ := by
    rw [List.getD_eq_getElem?_getD, List.getElem?_eq_getElem h2]
    rfl
  rw [e1, e2] at heq
  have := hinj heq
  exact congrArg Fin.val this

/-- C5: within each per-material partition, face-vertex occurrences
whose (position, normal, uv, tangent) components are exactly equal share
one vertex entry: the vertex array is the first-seen-order deduplication
of the built vertex stream, has no duplicates, every emitted index is
within bounds, and two emitted indices referencing equal vertex values
are the same index. -/
theorem C5_vertex_dedup (object : BObject)
    (materialsWriter : String → Option Nat) (ms : List Mesh)
    (hshape : ∀ face ∈ object.meshData.tessfaces,
      face.vertices.length = 3 ∨ face.vertices.length = 4)
    (hok : splitObjectByMaterials object materialsWriter = Except.ok ms) :
    ∀ p ∈ ms, ∃ mi ∈ usedMaterialIndices object.meshData,
      p.vertices = dedupFirst ((object.meshData.tessfaces.filter fun face =>
        mi = face.material_index).flatMap fun face =>
          faceVertexValues object object.meshData mi face) ∧
      p.vertices.Nodup ∧
      (∀ j ∈ p.indices, j < p.vertices.length) ∧
      (∀ j1 ∈ p.indices, ∀ j2 ∈ p.indices,
        p.vertices.getD j1 default = p.vertices.getD j2 default → j1 = j2) := by
  intro p hp
  obtain ⟨mi, hmi, hokm⟩ := splitObjectByMaterials_mem hok p hp
  obtain ⟨_, hdedup, hnd, hbound, _⟩ :=
    meshForMaterial_spec object object.meshData materialsWriter mi hshape hokm
  exact ⟨mi, hmi, hdedup, hnd, hbound,
    fun j1 h1 j2 h2 heq =>
      nodup_getD_inj hnd (hbound j1 h1) (hbound j2 h2) heq⟩

/-- C6: the triangle stream of each partition, read back by vertex value,
is exactly the per-face winding transform: a triangular face `[A, B, C]`
contributes `(B, C, A)` (indices `(1, 2, 0)` relative to the face) and a
quad `[A, B, C, D]` contributes `(B, C, A)` then `(C, D, A)`. -/
theorem C6_winding_transform (object : BObject)
    (materialsWriter : String → Option Nat) (ms : List Mesh)
    (hshape : ∀ face ∈ object.meshData.tessfaces,
      face.vertices.length = 3 ∨ face.vertices.length = 4)
    (hok : splitObjectByMaterials object materialsWriter = Except.ok ms) :
    ∀ p ∈ ms, ∃ mi ∈ usedMaterialIndices object.meshData,
      p.indices.map (fun j => p.vertices.getD j default) =
        (object.meshData.tessfaces.filter fun face =>
          mi = face.material_index).flatMap fun face =>
            windingValues (faceVertexValues object object.meshData mi face) := by
  intro p hp
  obtain ⟨mi, hmi, hokm⟩ := splitObjectByMaterials_mem hok p hp
  obtain ⟨_, _, _, _, hdecode⟩ :=
    meshForMaterial_spec object object.meshData materialsWriter mi hshape hokm
  exact ⟨mi, hmi, hdecode⟩

theorem sampleQuad_shape :
    ∀ face ∈ sampleQuadObj.meshData.tessfaces,
      face.vertices.length = 3 ∨ face.vertices.length = 4 := by
  intro face hface
  have hf : face = ⟨0, [0, 1, 2, 3], 0⟩ := List.mem_singleton.mp hface
  subst hf
  right
  rfl

theorem sampleQuad_split :
    splitObjectByMaterials sampleQuadObj (fun _ => some 5) =
      Except.ok [sampleQuadMesh] := by
  with_unfolding_all rfl

/-- C5 witness at the concrete one-quad scene. -/
theorem C5_witness :
    (∀ face ∈ sampleQuadObj.meshData.tessfaces,
      face.vertices.length = 3 ∨ face.vertices.length = 4) ∧
    splitObjectByMaterials sampleQuadObj (fun _ => some 5) =
      Except.ok [sampleQuadMesh] ∧
    (∀ p ∈ [sampleQuadMesh],
      ∃ mi ∈ usedMaterialIndices sampleQuadObj.meshData,
      p.vertices = dedupFirst ((sampleQuadObj.meshData.tessfaces.filter
        fun face => mi = face.material_index).flatMap fun face =>
          faceVertexValues sampleQuadObj sampleQuadObj.meshData mi face) ∧
      p.vertices.Nodup ∧
      (∀ j ∈ p.indices, j < p.vertices.length) ∧
      (∀ j1 ∈ p.indices, ∀ j2 ∈ p.indices,
        p.vertices.getD j1 default = p.vertices.getD j2 default → j1 = j2)) :=
  ⟨sampleQuad_shape, sampleQuad_split,
   C5_vertex_dedup sampleQuadObj (fun _ => some 5) [sampleQuadMesh]
     sampleQuad_shape sampleQuad_split⟩

/-- C6 witness at the concrete one-quad scene. -/
theorem C6_witness :
    (∀ face ∈ sampleQuadObj.meshData.tessfaces,
      face.vertices.length = 3 ∨ face.vertices.length = 4) ∧
    splitObjectByMaterials sampleQuadObj (fun _ => some 5) =
      Except.ok [sampleQuadMesh] ∧
    (∀ p ∈ [sampleQuadMesh],
      ∃ mi ∈ usedMaterialIndices sampleQuadObj.meshData,
      p.indices.map (fun j => p.vertices.getD j default) =
        (sampleQuadObj.meshData.tessfaces.filter fun face =>
          mi = face.material_index).flatMap fun face =>
            windingValues (faceVertexValues sampleQuadObj
              sampleQuadObj.meshData mi face)) :=
  ⟨sampleQuad_shape, sampleQuad_split,
   C6_winding_transform sampleQuadObj (fun _ => some 5) [sampleQuadMesh]
     sampleQuad_shape sampleQuad_split⟩

theorem pyKeysInsert_subset {α : Type} [DecidableEq α] :
    ∀ (l : List α) (acc : List α) (x : α),
    x ∈ l.foldl pyKeysInsert acc → x ∈ acc ∨ x ∈ l := by
  intro l
  induction l with
  | nil => intro acc x h; exact Or.inl h
  | cons a l ih =>
    intro acc x h
    rw [List.foldl_cons] at h
    rcases ih (pyKeysInsert acc a) x h with h1 | h1
    · unfold pyKeysInsert at h1
      split at h1
      · exact Or.inl h1
      · rcases List.mem_append.mp h1 with h2 | h2
        · exact Or.inl h2
        · exact Or.inr (by simp at h2; simp [h2])
    · exact Or.inr (List.mem_cons_of_mem _ h1)

theorem dedupFirst_subset {α : Type} [DecidableEq α] (l : List α) :
    ∀ x ∈ dedupFirst l, x ∈ l := by
  intro x h
  rcases pyKeysInsert_subset l [] x h with h1 | h1
  · simp at h1
  · exact h1

theorem buildVertex_uv_no_layer (object : BObject) (meshCopy : BMeshData)
    (materialIndex : Nat) (face : BFace) (k vIndex : Nat)
    (hnouv : meshCopy.uvLayer = none) :
    (buildVertex object meshCopy materialIndex face k vIndex).uv =
      specFallbackUvWorld object meshCopy materialIndex
        (meshCopy.vertices.getD vIndex default) := by
  unfold buildVertex specFallbackUvWorld calculateUvs
  rw [hnouv]

/-- C3 (amended): when no UV layer exists, every vertex of every
partition carries the fallback UV computed from the vertex's
world-transformed position (the object world matrix applied to the
local position), its x and y divided by the object X and Y dimensions
and then transformed by the active material texture slot when one
exists — not from the raw local position as the original claim states. -/
theorem C3_uv_fallback_uses_world_position (object : BObject)
    (materialsWriter : String → Option Nat) (ms : List Mesh)
    (hnouv : object.meshData.uvLayer = none)
    (hshape : ∀ face ∈ object.meshData.tessfaces,
      face.vertices.length = 3 ∨ face.vertices.length = 4)
    (hok : splitObjectByMaterials object materialsWriter = Except.ok ms) :
    ∀ p ∈ ms, ∀ v ∈ p.vertices,
      ∃ mi ∈ usedMaterialIndices object.meshData,
      ∃ face ∈ object.meshData.tessfaces, mi = face.material_index ∧
      ∃ kv ∈ face.vertices.enum,
        v = buildVertex object object.meshData mi face kv.1 kv.2 ∧
        v.uv = specFallbackUvWorld object object.meshData mi
          (object.meshData.vertices.getD kv.2 default) := by
  intro p hp v hv
  obtain ⟨mi, hmi, hokm⟩ := splitObjectByMaterials_mem hok p hp
  obtain ⟨_, hdedup, _, _, _⟩ :=
    meshForMaterial_spec object object.meshData materialsWriter mi hshape hokm
  rw [hdedup] at hv
  have hstream := dedupFirst_subset _ v hv
  obtain ⟨face, hface, hvface⟩ := List.mem_flatMap.mp hstream
  have hfmem : face ∈ object.meshData.tessfaces :=
    List.mem_of_mem_filter hface
  have hfmat : mi = face.material_index := by
    have := List.of_mem_filter hface
    simpa using this
  unfold faceVertexValues at hvface
  obtain ⟨kv, hkv, hbuild⟩ := List.mem_map.mp hvface
  refine ⟨mi, hmi, face, hfmem, hfmat, kv, hkv, hbuild.symm, ?_⟩
  rw [← hbuild]
  exact buildVertex_uv_no_layer object object.meshData mi face kv.1 kv.2 hnouv

/-- C3 counterexample: for a mesh without UV layer whose world matrix
translates x by 1, the emitted fallback UV of the vertex at local
position `(0, 0, 0)` is `(1/2, 0)` (computed from the world position
`(1, 0, 0)`), while the claimed local-position rule yields `(0, 0)`. -/
theorem C3_counterexample :
    splitObjectByMaterials c3Obj (fun _ => some 3) =
      Except.ok [⟨some 3,
        [⟨(1, 0, 0), (0, 1, 0), (1/2, 0), (1, 0, 0)⟩,
         ⟨(2, 0, 0), (0, 1, 0), (1, 0), (1, 0, 0)⟩,
         ⟨(1, 0, -1), (0, 1, 0), (1/2, 1/2), (1, 0, 0)⟩],
        [1, 2, 0]⟩] ∧
    specFallbackUvLocal c3Obj c3Obj.meshData 0 ⟨(0, 0, 0), (0, 0, 1)⟩ =
      (0, 0) ∧
    ((1 : ℚ)/2, (0 : ℚ)) ≠ ((0 : ℚ), (0 : ℚ)) := by
  refine ⟨by with_unfolding_all rfl, by with_unfolding_all rfl, by norm_num⟩

theorem c3Obj_shape :
    ∀ face ∈ c3Obj.meshData.tessfaces,
      face.vertices.length = 3 ∨ face.vertices.length = 4 := by
  intro face hface
  have hf : face = ⟨0, [0, 1, 2], 0⟩ := List.mem_singleton.mp hface
  subst hf
  left
  rfl

theorem c3Obj_split :
    splitObjectByMaterials c3Obj (fun _ => some 3) =
      Except.ok [⟨some 3,
        [⟨(1, 0, 0), (0, 1, 0), (1/2, 0), (1, 0, 0)⟩,
         ⟨(2, 0, 0), (0, 1, 0), (1, 0), (1, 0, 0)⟩,
         ⟨(1, 0, -1), (0, 1, 0), (1/2, 1/2), (1, 0, 0)⟩],
        [1, 2, 0]⟩] := by
  with_unfolding_all rfl

/-- C3 witness: the amended theorem applied at the concrete translated
plane. -/
theorem C3_witness :
    c3Obj.meshData.uvLayer = none ∧
    (∀ p ∈ [(⟨some 3,
        [⟨(1, 0, 0), (0, 1, 0), (1/2, 0), (1, 0, 0)⟩,
         ⟨(2, 0, 0), (0, 1, 0), (1, 0), (1, 0, 0)⟩,
         ⟨(1, 0, -1), (0, 1, 0), (1/2, 1/2), (1, 0, 0)⟩],
        [1, 2, 0]⟩ : Mesh)], ∀ v ∈ p.vertices,
      ∃ mi ∈ usedMaterialIndices c3Obj.meshData,
      ∃ face ∈ c3Obj.meshData.tessfaces, mi = face.material_index ∧
      ∃ kv ∈ face.vertices.enum,
        v = buildVertex c3Obj c3Obj.meshData mi face kv.1 kv.2 ∧
        v.uv = specFallbackUvWorld c3Obj c3Obj.meshData mi
          (c3Obj.meshData.vertices.getD kv.2 default)) :=
  ⟨rfl, C3_uv_fallback_uses_world_position c3Obj (fun _ => some 3) _
    rfl c3Obj_shape c3Obj_split⟩

/-! ## Missing material id (C7) -/
theorem meshForMaterial_materialId {object : BObject} {meshCopy : BMeshData}
    {materialsWriter : String → Option Nat} {materialIndex : Nat} {p : Mesh}
    (hok : meshForMaterial object meshCopy materialsWriter materialIndex =
      Except.ok p) :
    ∃ mat, meshCopy.materials.getD materialIndex none = some mat ∧
      p.materialId = materialsWriter mat.name := by
  unfold meshForMaterial at hok
  cases hmat : meshCopy.materials.getD materialIndex none with
  | none => rw [hmat] at hok; exact absurd hok (by simp)
  | some mat =>
    rw [hmat] at hok
    dsimp only at hok
    by_cases h : mat.name.startsWith "__"
    · rw [if_pos h] at hok
      exact absurd hok (by simp)
    · rw [if_neg h] at hok
      have hp := Except.ok.inj hok
      exact ⟨mat, rfl, by rw [← hp]⟩

theorem vertTokens_length (vs : List UvVertex) :
    (vs.flatMap fun v => [Token.vec3 v.co, Token.vec3 v.normal,
      Token.vec2 v.uv, Token.vec3 v.tangent]).length = 4 * vs.length := by
  induction vs with
  | nil => rfl
  | cons v vs ih =>
    rw [List.flatMap_cons, List.length_append, ih, List.length_cons]
    simp
    ring

/-- C7: a partition whose material id did not resolve (the Materials
Writer mapping, modelled from the spec as `String → Option Nat`, yielded
no id) does not abort the export: `writeMesh` succeeds, records the
missing-material warning, and writes a material id of `0` at its place
in the MeshNode record; and every partition produced by
`splitObjectByMaterials` carries exactly the id the Materials Writer
returned for its material name. -/
theorem C7_missing_material_id (name : String) (mesh : Mesh)
    (props : NodeProperties) (hnone : mesh.materialId = none)
    (hlen : mesh.vertices.length ≤ 2 ^ 16) :
    (∃ pre post, writeMesh name mesh props =
      Except.ok (pre ++ [Token.uint 0] ++ post,
        ["No material to mesh '" ++ name ++ "' assigned"]) ∧
      pre.length = 8 + 4 * mesh.vertices.length + 1 + mesh.indices.length) ∧
    (∀ (object : BObject) (materialsWriter : String → Option Nat)
        (ms : List Mesh),
      splitObjectByMaterials object materialsWriter = Except.ok ms →
      ∀ p ∈ ms, ∃ mat : BMaterial, p.materialId = materialsWriter mat.name) := by
  constructor
  · refine ⟨[Token.uint (NodeClass "Mesh"), Token.strv name, Token.uint 0,
      Token.boolv true, Token.boolv props.castShadows,
      Token.boolv props.visible, Token.boolv props.transparent,
      Token.uint mesh.vertices.length] ++
      (mesh.vertices.flatMap fun v =>
        [Token.vec3 v.co, Token.vec3 v.normal, Token.vec2 v.uv,
         Token.vec3 v.tangent]) ++
      [Token.uint mesh.indices.length] ++ mesh.indices.map Token.ushort,
      [Token.uint props.layer, Token.flt props.lodIn,
       Token.flt props.lodOut] ++
      writeBoundingSphere mesh.vertices ++
      [Token.boolv props.renderable], ?_, ?_⟩
    · unfold writeMesh
      rw [if_neg (by omega)]
      rw [hnone]
      simp [List.append_assoc]
    · rw [List.length_append, List.length_append, List.length_append,
        vertTokens_length, List.length_map]
      simp
      try ring
  · intro object materialsWriter ms hok p hp
    obtain ⟨mi, _, hokm⟩ := splitObjectByMaterials_mem hok p hp
    obtain ⟨mat, _, hid⟩ := meshForMaterial_materialId hokm
    exact ⟨mat, hid⟩

/-- C7 witness at a concrete unresolved-material partition. -/
theorem C7_witness :
    ((⟨none, [default], [0, 0, 0]⟩ : Mesh).materialId = none ∧
      (⟨none, [default], [0, 0, 0]⟩ : Mesh).vertices.length ≤ 2 ^ 16) ∧
    ((∃ pre post, writeMesh "Tri" ⟨none, [default], [0, 0, 0]⟩ default =
      Except.ok (pre ++ [Token.uint 0] ++ post,
        ["No material to mesh 'Tri' assigned"]) ∧
      pre.length = 8 + 4 * (⟨none, [default], [0, 0, 0]⟩ : Mesh).vertices.length
        + 1 + (⟨none, [default], [0, 0, 0]⟩ : Mesh).indices.length) ∧
    (∀ (object : BObject) (materialsWriter : String → Option Nat)
        (ms : List Mesh),
      splitObjectByMaterials object materialsWriter = Except.ok ms →
      ∀ p ∈ ms, ∃ mat : BMaterial, p.materialId = materialsWriter mat.name)) :=
  ⟨⟨rfl, by norm_num⟩,
   C7_missing_material_id "Tri" ⟨none, [default], [0, 0, 0]⟩ default rfl
     (by norm_num)⟩

/-- C2 counterexample: in a scene where top-level object A has one child
with two grandchildren (3 descendants) and top-level object B has two
childless children (2 descendants), the code emits A before B (sorted by
direct-children count 1 < 2) while the claimed descendant-count order
puts B before A. -/
theorem C2_counterexample :
    (writeOrderTop c2Objects).map BObject.name = ["A", "B"] ∧
    (claimTopOrder c2Objects).map BObject.name = ["B", "A"] ∧
    (["A", "B"] : List String) ≠ ["B", "A"] := by
  refine ⟨by with_unfolding_all rfl, by with_unfolding_all rfl, by simp⟩

theorem strTokens_append (t1 t2 : List Token) :
    strTokens (t1 ++ t2) = strTokens t1 ++ strTokens t2 := by
  unfold strTokens
  rw [List.filterMap_append]

theorem except_ok_bind {ε α β : Type} (a : α) (f : α → Except ε β) :
    (Except.ok a : Except ε α) >>= f = f a := rfl

theorem writeChildren_plain (ctx : WCtx) :
    ∀ (n : Nat) (os : List BObject), sizeOf os ≤ n →
    allPlainList os = true →
    ∃ r, writeChildren ctx os = Except.ok r ∧
      strTokens r.1 = preorderNamesList os := by
  intro n
  induction n with
  | zero =>
    intro os hsz
    exfalso
    cases os with
    | nil => simp at hsz
    | cons o rest => simp at hsz
  | succ n ih =>
    intro os hsz hplain
    match os with
    | [] => exact ⟨([], []), rfl, rfl⟩
    | (BObject.mk nm t hp mw dims clm cpw md ac children) :: rest =>
      rw [allPlainList] at hplain
      have h1 : allPlain (.mk nm t hp mw dims clm cpw md ac children) = true :=
        (Bool.and_eq_true_iff.mp hplain).1
      have h2 : allPlainList rest = true :=
        (Bool.and_eq_true_iff.mp hplain).2
      rw [allPlain] at h1
      have hns : nm.startsWith "__" = false := by
        have := (Bool.and_eq_true_iff.mp (Bool.and_eq_true_iff.mp h1).1).1
        simpa using this
      have hnt : (t = "MESH") = False := by
        have := (Bool.and_eq_true_iff.mp (Bool.and_eq_true_iff.mp h1).1).2
        simpa using this
      have h3 : allPlainList children = true :=
        (Bool.and_eq_true_iff.mp h1).2
      have hszc : sizeOf children ≤ n := by
        simp only [List.cons.sizeOf_spec, BObject.mk.sizeOf_spec] at hsz
        omega
      have hszr : sizeOf rest ≤ n := by
        simp only [List.cons.sizeOf_spec, BObject.mk.sizeOf_spec] at hsz
        omega
      obtain ⟨rc, hrc, hrcs⟩ := ih children hszc h3
      obtain ⟨rr, hrr, hrrs⟩ := ih rest hszr h2
      have hobj : writeObject ctx (.mk nm t hp mw dims clm cpw md ac children) =
          Except.ok
            ((writeBaseNode ctx (.mk nm t hp mw dims clm cpw md ac children)).1
              ++ rc.1,
             (writeBaseNode ctx (.mk nm t hp mw dims clm cpw md ac children)).2
              ++ rc.2) := by
        rw [writeObject]
        rw [if_pos (by simp [hns])]
        rw [if_neg (by rw [hnt]; exact id)]
        simp only [pure_bind]
        rw [hrc]
        rfl
      refine ⟨((writeBaseNode ctx
            (.mk nm t hp mw dims clm cpw md ac children)).1 ++ rc.1 ++ rr.1,
          (writeBaseNode ctx
            (.mk nm t hp mw dims clm cpw md ac children)).2 ++ rc.2 ++ rr.2),
        ?_, ?_⟩
      · rw [writeChildren, hobj]
        rw [except_ok_bind, hrr]
        rfl
      · rw [strTokens_append, strTokens_append, hrcs, hrrs]
        rw [preorderNamesList]
        have hbase : strTokens (writeBaseNode ctx
            (.mk nm t hp mw dims clm cpw md ac children)).1 = [nm] := by
          rfl
        rw [hbase, preorderNames]
        rfl

/-- C2 (amended): in `write`, the top-level (parent-less) objects are
emitted in ascending order of their direct children count
(`len(k.children)`) — not of their full descendant count — with ties in
stable original order: the emitted top level is sorted by children
count, is a permutation of the parent-less objects, and within one
children-count class keeps the original order; deeper levels are emitted
in native child order (for a subtree of plain non-mesh, non-reserved
objects the name tokens appear in preorder with children in list
order). -/
theorem C2_top_level_order (objects : List BObject) (ctx : WCtx) :
    List.Pairwise (fun a b => a.children.length ≤ b.children.length)
      (writeOrderTop objects) ∧
    (writeOrderTop objects).Perm (objects.filter fun o => ¬ o.hasParent) ∧
    (∀ n : Nat, (writeOrderTop objects).filter
        (fun o => o.children.length = n) =
      (objects.filter fun o => ¬ o.hasParent).filter
        (fun o => o.children.length = n)) ∧
    (∀ os : List BObject, allPlainList os = true →
      ∃ r, writeChildren ctx os = Except.ok r ∧
        strTokens r.1 = preorderNamesList os) := by
  have htrans : ∀ a b c : BObject,
      (decide (a.children.length ≤ b.children.length)) = true →
      (decide (b.children.length ≤ c.children.length)) = true →
      (decide (a.children.length ≤ c.children.length)) = true := by
    intro a b c h1 h2
    simp at h1 h2 ⊢
    omega
  have htotal : ∀ a b : BObject,
      ((decide (a.children.length ≤ b.children.length)) ||
       (decide (b.children.length ≤ a.children.length))) = true := by
    intro a b
    simpa using Nat.le_total _ _
  refine ⟨?_, ?_, ?_, ?_⟩
  · unfold writeOrderTop
    refine List.Pairwise.sublist (List.filter_sublist _) ?_
    refine (List.sorted_mergeSort htrans htotal objects).imp ?_
    intro a b h
    simpa using h
  · unfold writeOrderTop
    exact (List.mergeSort_perm objects _).filter _
  · intro n
    have hBsub : ((objects.filter fun o => ¬ o.hasParent).filter
        (fun o => o.children.length = n)).Sublist objects :=
      (List.filter_sublist _).trans (List.filter_sublist _)
    have hBpw : ((objects.filter fun o => ¬ o.hasParent).filter
        (fun o => o.children.length = n)).Pairwise
        (fun a b => (decide (a.children.length ≤ b.children.length)) = true) := by
      apply List.pairwise_of_forall_mem_list
      intro a ha b hb
      have hca : a.children.length = n := by simpa using List.of_mem_filter ha
      have hcb : b.children.length = n := by simpa using List.of_mem_filter hb
      simp [hca, hcb]
    have hBmerge := List.sublist_mergeSort htrans htotal hBpw hBsub
    have hBtop : ((objects.filter fun o => ¬ o.hasParent).filter
        (fun o => o.children.length = n)).filter
          (fun o => ¬ o.hasParent) =
        (objects.filter fun o => ¬ o.hasParent).filter
          (fun o => o.children.length = n) := by
      apply List.filter_eq_self.mpr
      intro a ha
      have h2 := List.mem_filter.mp ha
      exact (List.mem_filter.mp h2.1).2
    have hBcnt : (((objects.filter fun o => ¬ o.hasParent).filter
        (fun o => o.children.length = n)).filter
          (fun o => o.children.length = n)) =
        (objects.filter fun o => ¬ o.hasParent).filter
          (fun o => o.children.length = n) := by
      apply List.filter_eq_self.mpr
      intro a ha
      exact (List.mem_filter.mp ha).2
    have hsubA : ((objects.filter fun o => ¬ o.hasParent).filter
        (fun o => o.children.length = n)).Sublist
        ((writeOrderTop objects).filter (fun o => o.children.length = n)) := by
      unfold writeOrderTop
      have h1 := (hBmerge.filter (fun o => (¬ o.hasParent : Bool))).filter
        (fun o => decide (o.children.length = n))
      rw [hBtop, hBcnt] at h1
      exact h1
    have hperm : ((writeOrderTop objects).filter
        (fun o => o.children.length = n)).Perm
        ((objects.filter fun o => ¬ o.hasParent).filter
          (fun o => o.children.length = n)) := by
      unfold writeOrderTop
      exact ((List.mergeSort_perm objects _).filter _).filter _
    exact (hsubA.eq_of_length hperm.length_eq.symm).symm
  · intro os hplain
    exact writeChildren_plain ctx (sizeOf os) os (le_refl _) hplain

/-- C2 witness: the amended theorem applied to the concrete scene, with
the plain-subtree hypothesis of the deep-order conjunct discharged
there. -/
theorem C2_witness :
    allPlainList c2Objects = true ∧
    ∃ r, writeChildren ⟨fun _ => none, fun _ => false, []⟩ c2Objects =
      Except.ok r ∧ strTokens r.1 = preorderNamesList c2Objects :=
  ⟨by with_unfolding_all rfl,
   (C2_top_level_order c2Objects ⟨fun _ => none, fun _ => false, []⟩).2.2.2
     c2Objects (by with_unfolding_all rfl)⟩
